import Mathlib

/-!
Verification development for the VAST core (TypeScript sources under
`src/core`): belief management (`BeliefManager`), belief revision (`JWMC`),
constrained decision scoring (`EEUCC`), gauge alerting (`GaugeMonitor`) and
the append-only audit trail (`LogManager`).

The embedding works over exact rationals (`ℚ`) in place of JavaScript IEEE
doubles; the two transcendental helpers of the source (`Math.exp`,
`Math.log`, used only for the diagnostic stability factor, which no theorem
below inspects) are threaded through as explicit function parameters.
JavaScript objects used as string-keyed dictionaries are embedded as
association lists (`List (String × ·)`) in insertion order; `Set`
deduplication (first occurrence wins) is `dedupFirst` below.
-/

namespace VAST

/-- JS `Array.from(new Set(xs))`: deduplicate keeping the first occurrence,
preserving insertion order (auxiliary, carries the already-seen elements). -/
def dedupFirstAux [DecidableEq α] (seen : List α) : List α → List α
  | [] => []
  | a :: rest =>
    if a ∈ seen then dedupFirstAux seen rest
    else a :: dedupFirstAux (a :: seen) rest

/-- JS `Array.from(new Set(xs))`: deduplicate keeping the first occurrence. -/
def dedupFirst [DecidableEq α] (l : List α) : List α := dedupFirstAux [] l

/-- Credence `π`: JS object mapping outcome name to probability, embedded as
an association list in insertion order. -/
abbrev Credence := List (String × ℚ)

/-- Sum of the probability values of a credence (`Object.values(pi).reduce(+)`). -/
def credSum (pi : Credence) : ℚ := (pi.map Prod.snd).sum

/-- `Object.keys(pi)`. -/
def credKeys (pi : Credence) : List String := pi.map Prod.fst

/-- JS `pi[outcome] || 0`: value at a key, defaulting to `0` when absent
(a stored `0` is also falsy in JS and yields `0`, which coincides). -/
def lookup0 (pi : Credence) (o : String) : ℚ := (pi.lookup o).getD 0

/-- Belief provenance (`BeliefSource` in `types.ts`). -/
inductive BeliefSource
  | initial
  | revised
  | external
deriving DecidableEq, Repr

/-- Justification `J` (`types.ts`): facts, rules, moral principles, context,
and the derived display chain. -/
structure Justification where
  facts : List String
  rules : List String
  moral_principles : List String
  context : String
  chain : Option (List String) := none
deriving DecidableEq, Repr

/-- Belief (`types.ts`): proposition, credence, confidence, justification,
timestamp and source. -/
structure Belief where
  proposition : String
  pi : Credence
  kappa : ℚ
  J : Justification
  timestamp : ℤ
  source : BeliefSource
deriving DecidableEq, Repr

/-- `BeliefDelta` (`types.ts`); `stability_factor` is the diagnostic value
computed with the abstracted `exp`/`log` primitives. -/
structure BeliefDelta where
  proposition : String
  pi_before : Credence
  pi_after : Credence
  kappa_before : ℚ
  kappa_after : ℚ
  moral_weight : ℚ
  stability_factor : ℚ
deriving DecidableEq, Repr

end VAST

namespace VAST

/-! ### BeliefManager static utilities (`belief/BeliefManager.ts`) -/

/-- `BeliefManager.normalizeCredence`: divide every probability by the total;
the source throws when the total is exactly `0`, embedded as `none`. -/
def normalizeCredence (pi : Credence) : Option Credence :=
  let s := credSum pi
  if s = 0 then none
  else some (pi.map (fun p => (p.1, p.2 / s)))

/-- `BeliefManager.jaccardSimilarity`: Jaccard index over the union of
facts, rules and moral principles of the two justifications. -/
def jaccardSimilarity (J1 J2 : Justification) : ℚ :=
  let set1 := dedupFirst (J1.facts ++ J1.rules ++ J1.moral_principles)
  let set2 := dedupFirst (J2.facts ++ J2.rules ++ J2.moral_principles)
  let inter := set1.filter (fun x => set2.contains x)
  let union := dedupFirst (set1 ++ set2)
  if union.length = 0 then 0 else (inter.length : ℚ) / (union.length : ℚ)

/-- `BeliefManager.hasCoreMoralPrinciple`. -/
def hasCoreMoralPrinciple (J : Justification) (corePrinciples : List String) : Bool :=
  J.moral_principles.any (fun mp => corePrinciples.contains mp)

/-- `BeliefManager.calculateEntropy` is `-Σ p·log2 p` over the nonzero
probabilities; `log2` is transcendental, so the embedding abstracts it as a
function parameter (no theorem below inspects entropy values). -/
def calculateEntropy (mlog2 : ℚ → ℚ) (pi : Credence) : ℚ :=
  (pi.map (fun p => if 0 < p.2 then -(p.2 * mlog2 p.2) else 0)).sum

end VAST

/-! ### Basic lemmas about the credence embedding -/

namespace VAST

theorem lookup0_nil (o : String) : lookup0 [] o = 0 := rfl

theorem lookup0_cons (k : String) (v : ℚ) (rest : Credence) (o : String) :
    lookup0 ((k, v) :: rest) o = if o = k then v else lookup0 rest o := by
  by_cases h : o = k
  · subst h; simp [lookup0, List.lookup]
  · have hb : (o == k) = false := by simp [h]
    simp [lookup0, List.lookup, hb, h]

theorem lookup0_eq_zero_of_not_mem (pi : Credence) (o : String)
    (h : o ∉ credKeys pi) : lookup0 pi o = 0 := by
  induction pi with
  | nil => rfl
  | cons p rest ih =>
    obtain ⟨k, v⟩ := p
    rw [lookup0_cons]
    simp only [credKeys, List.map_cons, List.mem_cons] at h
    push_neg at h
    rw [if_neg h.1]
    exact ih (by simpa [credKeys] using h.2)

/-- Sum of an indicator over a duplicate-free list containing the key once. -/
theorem sum_map_ite_eq (L : List String) (k : String) (v : ℚ)
    (hnd : L.Nodup) (hk : k ∈ L) :
    (L.map (fun o => if o = k then v else 0)).sum = v := by
  induction L with
  | nil => cases hk
  | cons a rest ih =>
    rcases List.mem_cons.mp hk with h | h
    · subst h
      have hnot : k ∉ rest := (List.nodup_cons.mp hnd).1
      have hz : (rest.map (fun o => if o = k then v else 0)).sum = 0 := by
        apply List.sum_eq_zero
        intro x hx
        obtain ⟨o, ho, rfl⟩ := List.mem_map.mp hx
        rw [if_neg]
        intro h; exact hnot (h ▸ ho)
      simp [hz]
    · have hne : a ≠ k := by
        rintro rfl
        exact (List.nodup_cons.mp hnd).1 h
      have := ih (List.nodup_cons.mp hnd).2 h
      simp [hne, this]

/-- Summing `lookup0 pi` over any duplicate-free list covering the keys of a
duplicate-free-keyed credence recovers the total probability mass. -/
theorem sum_lookup0_eq_credSum (pi : Credence) (L : List String)
    (hkeys : ∀ k ∈ credKeys pi, k ∈ L) (hL : L.Nodup)
    (hpi : (credKeys pi).Nodup) :
    (L.map (lookup0 pi)).sum = credSum pi := by
  induction pi generalizing L with
  | nil =>
    have hz : ∀ x ∈ L.map (lookup0 []), x = 0 := by
      intro x hx
      obtain ⟨o, _, rfl⟩ := List.mem_map.mp hx
      rfl
    rw [List.sum_eq_zero hz]
    rfl
  | cons p rest ih =>
    obtain ⟨k, v⟩ := p
    have hkeyscons : credKeys ((k, v) :: rest) = k :: credKeys rest := rfl
    have hnd2 : (k :: credKeys rest).Nodup := hkeyscons ▸ hpi
    have hknotin : k ∉ credKeys rest := (List.nodup_cons.mp hnd2).1
    have hrestnd : (credKeys rest).Nodup := (List.nodup_cons.mp hnd2).2
    have hpoint : ∀ o ∈ L,
        lookup0 ((k, v) :: rest) o = (if o = k then v else 0) + lookup0 rest o := by
      intro o _
      rw [lookup0_cons]
      by_cases h : o = k
      · subst h
        rw [if_pos rfl, if_pos rfl, lookup0_eq_zero_of_not_mem rest o hknotin]
        ring
      · rw [if_neg h, if_neg h]; ring
    have hkmem : k ∈ L := hkeys k (hkeyscons ▸ List.mem_cons_self k (credKeys rest))
    have hsub : ∀ x ∈ credKeys rest, x ∈ L := by
      intro x hx
      exact hkeys x (hkeyscons ▸ List.mem_cons_of_mem k hx)
    calc (L.map (lookup0 ((k, v) :: rest))).sum
        = (L.map (fun o => (if o = k then v else 0) + lookup0 rest o)).sum := by
          exact congrArg List.sum (List.map_congr_left hpoint)
      _ = (L.map (fun o => if o = k then v else 0)).sum + (L.map (lookup0 rest)).sum := by
          rw [← List.sum_map_add]
      _ = v + credSum rest := by
          rw [sum_map_ite_eq L k v hL hkmem, ih L hsub hL hrestnd]
      _ = credSum ((k, v) :: rest) := by simp [credSum]

theorem mem_dedupFirstAux [DecidableEq α] (l : List α) (seen : List α) (x : α) :
    x ∈ dedupFirstAux seen l ↔ x ∈ l ∧ x ∉ seen := by
  induction l generalizing seen with
  | nil => simp [dedupFirstAux]
  | cons a rest ih =>
    rw [dedupFirstAux]
    by_cases h : a ∈ seen
    · rw [if_pos h, ih]
      constructor
      · rintro ⟨h1, h2⟩
        exact ⟨List.mem_cons_of_mem a h1, h2⟩
      · rintro ⟨h1, h2⟩
        rcases List.mem_cons.mp h1 with rfl | h1
        · exact absurd h h2
        · exact ⟨h1, h2⟩
    · rw [if_neg h]
      simp only [List.mem_cons, ih]
      constructor
      · rintro (rfl | ⟨h1, h2⟩)
        · exact ⟨Or.inl rfl, h⟩
        · exact ⟨Or.inr h1, fun hs => h2 (Or.inr hs)⟩
      · rintro ⟨rfl | h1, h2⟩
        · exact Or.inl rfl
        · by_cases hxa : x = a
          · exact Or.inl hxa
          · refine Or.inr ⟨h1, ?_⟩
            rintro (h3 | h3)
            · exact hxa h3
            · exact h2 h3

theorem mem_dedupFirst [DecidableEq α] (l : List α) (x : α) :
    x ∈ dedupFirst l ↔ x ∈ l := by
  rw [dedupFirst, mem_dedupFirstAux]
  simp

theorem nodup_dedupFirstAux [DecidableEq α] (l seen : List α) :
    (dedupFirstAux seen l).Nodup := by
  induction l generalizing seen with
  | nil => exact List.nodup_nil
  | cons a rest ih =>
    rw [dedupFirstAux]
    by_cases h : a ∈ seen
    · rw [if_pos h]; exact ih seen
    · rw [if_neg h]
      refine List.nodup_cons.mpr ⟨?_, ih (a :: seen)⟩
      intro hmem
      exact ((mem_dedupFirstAux rest (a :: seen) a).mp hmem).2 (List.mem_cons_self a seen)

theorem nodup_dedupFirst [DecidableEq α] (l : List α) : (dedupFirst l).Nodup :=
  nodup_dedupFirstAux l []

/-- `normalizeCredence` succeeds exactly on nonzero total mass and the
result then sums to `1`. -/
theorem normalizeCredence_sum (pi : Credence) (h : credSum pi ≠ 0) :
    ∃ q, normalizeCredence pi = some q ∧ credSum q = 1 := by
  refine ⟨pi.map (fun p => (p.1, p.2 / credSum pi)), ?_, ?_⟩
  · simp [normalizeCredence, h]
  · have h1 : (pi.map (fun p => (p.1, p.2 / credSum pi))).map Prod.snd
        = pi.map (fun p => Prod.snd p * (credSum pi)⁻¹) := by
      rw [List.map_map]
      exact List.map_congr_left (fun p _ => by simp [div_eq_mul_inv])
    show ((pi.map (fun p => (p.1, p.2 / credSum pi))).map Prod.snd).sum = 1
    rw [h1, List.sum_map_mul_right]
    exact mul_inv_cancel₀ h

end VAST

namespace VAST

/-! ### JWMC — Justified Weighted Moral Compatibility (`jwmc/JWMC.ts`) -/

/-- `JWMCParams` (`types.ts`): α, β, γ in `[0,1]`, optional core bonus
(destructured with default `0.1` in `JWMC.revise`). -/
structure JWMCParams where
  alpha : ℚ
  beta : ℚ
  gamma : ℚ
  moral_core_bonus : ℚ := 1/10
deriving DecidableEq, Repr

/-- `Math.max(0, Math.min(1, x))`. -/
def clamp01 (x : ℚ) : ℚ := max 0 (min 1 x)

/-- `JWMC.calculateMoralWeight`: `w = clamp01(γ·jaccard(J₁,J₂) + bonus)`,
the bonus applying when both justifications invoke a core moral principle. -/
def calculateMoralWeight (corePrinciples : List String) (J1 J2 : Justification)
    (gamma coreBonus : ℚ) : ℚ :=
  let similarity := jaccardSimilarity J1 J2
  let weight := gamma * similarity
  let weight2 :=
    if hasCoreMoralPrinciple J1 corePrinciples && hasCoreMoralPrinciple J2 corePrinciples
    then weight + coreBonus else weight
  clamp01 weight2

/-- `JWMC.blendCredences`: weighted average over the union of outcomes with
`effectiveAlpha = α·w + (1−w)·0.5`, then normalized; `none` embeds the
`normalizeCredence` throw on zero total mass. -/
def blendCredences (pi1 pi2 : Credence) (alpha moralWeight : ℚ) : Option Credence :=
  let effectiveAlpha := alpha * moralWeight + (1 - moralWeight) * (1/2)
  let allOutcomes := dedupFirst (credKeys pi1 ++ credKeys pi2)
  let blended := allOutcomes.map
    (fun o => (o, effectiveAlpha * lookup0 pi1 o + (1 - effectiveAlpha) * lookup0 pi2 o))
  normalizeCredence blended

/-- `JWMC.updateConfidence`: `κ_new = clamp01(min(κ₁,κ₂) · (β + (1−β)·w))`. -/
def updateConfidence (kappa1 kappa2 beta moralWeight : ℚ) : ℚ :=
  let minKappa := min kappa1 kappa2
  let stabilityFactor := beta + (1 - beta) * moralWeight
  clamp01 (minKappa * stabilityFactor)

/-- `JWMC.mergeJustifications`: deduplicated unions (existing items first),
contexts concatenated with "; " when they differ; the returned object has no
`chain` field and no further fields. -/
def mergeJustifications (J1 J2 : Justification) : Justification :=
  { facts := dedupFirst (J1.facts ++ J2.facts)
    rules := dedupFirst (J1.rules ++ J2.rules)
    moral_principles := dedupFirst (J1.moral_principles ++ J2.moral_principles)
    context := if J1.context = J2.context then J1.context
               else J1.context ++ "; " ++ J2.context
    chain := none }

/-- `JWMC.calculateStabilityFactor` (diagnostic only): KL-style divergence
over the keys of `π₁` with `0.001` substituted for zero probabilities, then
`0.6·mexp(−kl) + 0.4·(1−|κ₁−κ₂|)` clamped; `mexp`/`mlog` abstract the
transcendental `Math.exp`/`Math.log`. -/
def calculateStabilityFactor (mexp mlog : ℚ → ℚ) (pi1 pi2 : Credence)
    (kappa1 kappa2 : ℚ) : ℚ :=
  let klDiv := (pi1.map (fun p =>
    let p1 := if p.2 = 0 then 1/1000 else p.2
    let p2 := if lookup0 pi2 p.1 = 0 then 1/1000 else lookup0 pi2 p.1
    if 0 < p1 then p1 * mlog (p1 / p2) else 0)).sum
  let kappaChange := |kappa1 - kappa2|
  let credenceStability := mexp (-klDiv)
  let confidenceStability := 1 - kappaChange
  clamp01 ((6/10) * credenceStability + (4/10) * confidenceStability)

/-- `Partial<Belief>` evidence as consumed by `JWMC.revise`: each missing
field falls back to the existing belief's field. -/
structure Evidence where
  pi : Option Credence := none
  kappa : Option ℚ := none
  J : Option Justification := none
deriving DecidableEq, Repr

/-- Result of `JWMC.revise`: revised belief plus delta record. -/
structure ReviseResult where
  belief : Belief
  delta : BeliefDelta
deriving DecidableEq, Repr

/-- `JWMC.revise`: moral weight, credence blend, confidence decay,
justification merge, stability diagnostic; `none` embeds the normalization
throw (zero blended mass). -/
def revise (mexp mlog : ℚ → ℚ) (params : JWMCParams) (corePrinciples : List String)
    (now : ℤ) (existingBelief : Belief) (newEvidence : Evidence) : Option ReviseResult :=
  let moralWeight := calculateMoralWeight corePrinciples existingBelief.J
    (newEvidence.J.getD existingBelief.J) params.gamma params.moral_core_bonus
  (blendCredences existingBelief.pi (newEvidence.pi.getD existingBelief.pi)
      params.alpha moralWeight).map (fun pi_new =>
    let kappa_new := updateConfidence existingBelief.kappa
      (newEvidence.kappa.getD existingBelief.kappa) params.beta moralWeight
    let J_new := mergeJustifications existingBelief.J (newEvidence.J.getD existingBelief.J)
    let stabilityFactor := calculateStabilityFactor mexp mlog existingBelief.pi pi_new
      existingBelief.kappa kappa_new
    { belief :=
        { proposition := existingBelief.proposition
          pi := pi_new
          kappa := kappa_new
          J := J_new
          timestamp := now
          source := .revised }
      delta :=
        { proposition := existingBelief.proposition
          pi_before := existingBelief.pi
          pi_after := pi_new
          kappa_before := existingBelief.kappa
          kappa_after := kappa_new
          moral_weight := moralWeight
          stability_factor := stabilityFactor } })

/-! ### Lemmas about clamping and blending -/

theorem clamp01_nonneg (x : ℚ) : 0 ≤ clamp01 x := le_max_left 0 _

theorem clamp01_le_one (x : ℚ) : clamp01 x ≤ 1 :=
  max_le (by norm_num) (min_le_left 1 x)

/-- Packing a value list into key-value pairs does not change the total. -/
theorem credSum_map_pair (L : List String) (f : String → ℚ) :
    credSum (L.map (fun o => (o, f o))) = (L.map f).sum := by
  rw [credSum, List.map_map]
  rfl

/-- The pre-normalization blended mass is the `e`-weighted combination of the
two input masses, provided keys are duplicate-free. -/
theorem blended_mass (pi1 pi2 : Credence) (e : ℚ)
    (hnd1 : (credKeys pi1).Nodup) (hnd2 : (credKeys pi2).Nodup) :
    credSum ((dedupFirst (credKeys pi1 ++ credKeys pi2)).map
      (fun o => (o, e * lookup0 pi1 o + (1 - e) * lookup0 pi2 o)))
    = e * credSum pi1 + (1 - e) * credSum pi2 := by
  set L := dedupFirst (credKeys pi1 ++ credKeys pi2) with hL
  have hLnd : L.Nodup := nodup_dedupFirst _
  have hcov1 : ∀ k ∈ credKeys pi1, k ∈ L := by
    intro k hk
    rw [hL, mem_dedupFirst]
    exact List.mem_append_left _ hk
  have hcov2 : ∀ k ∈ credKeys pi2, k ∈ L := by
    intro k hk
    rw [hL, mem_dedupFirst]
    exact List.mem_append_right _ hk
  rw [credSum_map_pair]
  have hsplit : (L.map (fun o => e * lookup0 pi1 o + (1 - e) * lookup0 pi2 o)).sum
      = (L.map (fun o => e * lookup0 pi1 o)).sum
        + (L.map (fun o => (1 - e) * lookup0 pi2 o)).sum := by
    exact List.sum_map_add
  rw [hsplit, List.sum_map_mul_left, List.sum_map_mul_left,
    sum_lookup0_eq_credSum pi1 L hcov1 hLnd hnd1,
    sum_lookup0_eq_credSum pi2 L hcov2 hLnd hnd2]

end VAST

namespace VAST

theorem clamp01_le (x m : ℚ) (hm : 0 ≤ m) (hx : x ≤ m) : clamp01 x ≤ m :=
  max_le hm (le_trans (min_le_right 1 x) hx)

/-- Anatomy of a successful `revise`: its components in terms of the
blended credence. -/
theorem revise_eq_some (mexp mlog : ℚ → ℚ) (params : JWMCParams)
    (corePrinciples : List String) (now : ℤ) (existingBelief : Belief)
    (newEvidence : Evidence) (r : ReviseResult)
    (h : revise mexp mlog params corePrinciples now existingBelief newEvidence = some r) :
    ∃ q, blendCredences existingBelief.pi (newEvidence.pi.getD existingBelief.pi)
        params.alpha (calculateMoralWeight corePrinciples existingBelief.J
          (newEvidence.J.getD existingBelief.J) params.gamma params.moral_core_bonus)
        = some q ∧
      r.belief.pi = q ∧
      r.belief.kappa = updateConfidence existingBelief.kappa
        (newEvidence.kappa.getD existingBelief.kappa) params.beta
        (calculateMoralWeight corePrinciples existingBelief.J
          (newEvidence.J.getD existingBelief.J) params.gamma params.moral_core_bonus) ∧
      r.belief.J = mergeJustifications existingBelief.J
        (newEvidence.J.getD existingBelief.J) ∧
      r.belief.timestamp = now ∧
      r.belief.source = .revised ∧
      r.delta.moral_weight = calculateMoralWeight corePrinciples existingBelief.J
        (newEvidence.J.getD existingBelief.J) params.gamma params.moral_core_bonus := by
  rw [revise, Option.map_eq_some'] at h
  obtain ⟨q, hq, hr⟩ := h
  exact ⟨q, hq, by rw [← hr], by rw [← hr], by rw [← hr], by rw [← hr], by rw [← hr],
    by rw [← hr]⟩

end VAST

namespace VAST

/-- A successful blend: with α and the moral weight in `[0,1]` and both
input masses at least `0.99`, the blended mass is positive, so
normalization succeeds and the result sums to exactly `1`. -/
theorem blendCredences_total (pi1 pi2 : Credence) (alpha w : ℚ)
    (ha0 : 0 ≤ alpha) (ha1 : alpha ≤ 1) (hw0 : 0 ≤ w) (hw1 : w ≤ 1)
    (hnd1 : (credKeys pi1).Nodup) (hnd2 : (credKeys pi2).Nodup)
    (hS1 : 99/100 ≤ credSum pi1) (hS2 : 99/100 ≤ credSum pi2) :
    ∃ q, blendCredences pi1 pi2 alpha w = some q ∧ credSum q = 1 := by
  have he0 : 0 ≤ alpha * w + (1 - w) * (1/2) := by nlinarith
  have he1 : alpha * w + (1 - w) * (1/2) ≤ 1 := by nlinarith
  have hmass := blended_mass pi1 pi2 (alpha * w + (1 - w) * (1/2)) hnd1 hnd2
  have hne : credSum ((dedupFirst (credKeys pi1 ++ credKeys pi2)).map
      (fun o => (o, (alpha * w + (1 - w) * (1/2)) * lookup0 pi1 o
        + (1 - (alpha * w + (1 - w) * (1/2))) * lookup0 pi2 o))) ≠ 0 := by
    rw [hmass]
    nlinarith
  obtain ⟨q, hq, hsum⟩ := normalizeCredence_sum _ hne
  exact ⟨q, hq, hsum⟩

/-- A successful blend makes `revise` succeed, returning the blend as the
new credence. -/
theorem revise_total (mexp mlog : ℚ → ℚ) (params : JWMCParams) (core : List String)
    (now : ℤ) (b : Belief) (ev : Evidence) (q : Credence)
    (hq : blendCredences b.pi (ev.pi.getD b.pi) params.alpha
        (calculateMoralWeight core b.J (ev.J.getD b.J) params.gamma
          params.moral_core_bonus) = some q) :
    ∃ r, revise mexp mlog params core now b ev = some r ∧ r.belief.pi = q := by
  simp only [revise, hq, Option.map_some']
  exact ⟨_, rfl, rfl⟩

/-- C1: for a valid existing belief and valid evidence (duplicate-free
outcome keys, non-negative probabilities, mass within the store's `0.01`
tolerance of `1`) and α in `[0,1]` (enforced by the `JWMC` constructor),
`revise` succeeds and returns a credence summing to `1.0` within `1e-6`
(in exact arithmetic, exactly `1`) and a confidence in `[0,1]`. -/
theorem revise_returns_normalized_credence_and_bounded_kappa
    (mexp mlog : ℚ → ℚ) (params : JWMCParams) (corePrinciples : List String)
    (now : ℤ) (existingBelief : Belief) (newEvidence : Evidence)
    (ha0 : 0 ≤ params.alpha) (ha1 : params.alpha ≤ 1)
    (hnd1 : (credKeys existingBelief.pi).Nodup)
    (hpos1 : ∀ p ∈ existingBelief.pi, 0 ≤ p.2)
    (hsum1 : |credSum existingBelief.pi - 1| ≤ 1/100)
    (hnd2 : (credKeys (newEvidence.pi.getD existingBelief.pi)).Nodup)
    (hpos2 : ∀ p ∈ newEvidence.pi.getD existingBelief.pi, 0 ≤ p.2)
    (hsum2 : |credSum (newEvidence.pi.getD existingBelief.pi) - 1| ≤ 1/100) :
    ∃ r, revise mexp mlog params corePrinciples now existingBelief newEvidence = some r ∧
      |credSum r.belief.pi - 1| ≤ 1/1000000 ∧
      0 ≤ r.belief.kappa ∧ r.belief.kappa ≤ 1 := by
  have hw0 : 0 ≤ calculateMoralWeight corePrinciples existingBelief.J
      (newEvidence.J.getD existingBelief.J) params.gamma params.moral_core_bonus :=
    clamp01_nonneg _
  have hw1 : calculateMoralWeight corePrinciples existingBelief.J
      (newEvidence.J.getD existingBelief.J) params.gamma params.moral_core_bonus ≤ 1 :=
    clamp01_le_one _
  have hS1 : 99/100 ≤ credSum existingBelief.pi := by
    have h := abs_le.mp hsum1
    linarith [h.1]
  have hS2 : 99/100 ≤ credSum (newEvidence.pi.getD existingBelief.pi) := by
    have h := abs_le.mp hsum2
    linarith [h.1]
  obtain ⟨q, hq, hqsum⟩ := blendCredences_total existingBelief.pi
    (newEvidence.pi.getD existingBelief.pi) params.alpha _ ha0 ha1 hw0 hw1
    hnd1 hnd2 hS1 hS2
  obtain ⟨r, hrev, hrpi⟩ := revise_total mexp mlog params corePrinciples now
    existingBelief newEvidence q hq
  obtain ⟨q2, _, _, hkappa, _, _, _, _⟩ := revise_eq_some mexp mlog params
    corePrinciples now existingBelief newEvidence r hrev
  refine ⟨r, hrev, ?_, ?_, ?_⟩
  · rw [hrpi, hqsum]
    norm_num
  · rw [hkappa]
    exact clamp01_nonneg _
  · rw [hkappa]
    exact clamp01_le_one _

/-- Sample existing belief used to instantiate theorems with hypotheses. -/
def sampleBelief : Belief :=
  { proposition := "treat_patient"
    pi := [("effective", 1/2), ("ineffective", 1/2)]
    kappa := 3/4
    J := { facts := ["f"], rules := [], moral_principles := [], context := "c1" }
    timestamp := 0
    source := .initial }

/-- Sample evidence used to instantiate theorems with hypotheses. -/
def sampleEvidence : Evidence :=
  { pi := some [("effective", 3/10), ("ineffective", 7/10)]
    kappa := some (4/5)
    J := some { facts := ["f"], rules := [], moral_principles := [], context := "c2" } }

/-- C1 witness: the revision theorem applied at concrete inputs. -/
theorem revise_returns_normalized_credence_and_bounded_kappa_witness :
    ∃ r, revise id id { alpha := 7/10, beta := 8/10, gamma := 1/2, moral_core_bonus := 1/10 }
        ["preserve_life"] 3 sampleBelief sampleEvidence = some r ∧
      |credSum r.belief.pi - 1| ≤ 1/1000000 ∧
      0 ≤ r.belief.kappa ∧ r.belief.kappa ≤ 1 :=
  revise_returns_normalized_credence_and_bounded_kappa id id
    { alpha := 7/10, beta := 8/10, gamma := 1/2, moral_core_bonus := 1/10 }
    ["preserve_life"] 3 sampleBelief sampleEvidence
    (by norm_num) (by norm_num) (by decide)
    (by intro p hp; simp [sampleBelief] at hp; rcases hp with h | h <;> rw [h] <;> norm_num)
    (by simp [sampleBelief, credSum]; norm_num)
    (by decide)
    (by intro p hp; simp [sampleBelief, sampleEvidence] at hp; rcases hp with h | h <;> rw [h] <;> norm_num)
    (by simp [sampleBelief, sampleEvidence, credSum]; norm_num)

end VAST

namespace VAST

/-- C8: the revised confidence never exceeds either input confidence:
`updateConfidence κ₁ κ₂ β w ≤ min κ₁ κ₂` for κ₁, κ₂, β, w all in `[0,1]`
(β validated by the `JWMC` constructor, w clamped by
`calculateMoralWeight`). -/
theorem updateConfidence_le_min (kappa1 kappa2 beta w : ℚ)
    (hk1 : 0 ≤ kappa1) (hk1' : kappa1 ≤ 1) (hk2 : 0 ≤ kappa2) (hk2' : kappa2 ≤ 1)
    (hb : 0 ≤ beta) (hb' : beta ≤ 1) (hw : 0 ≤ w) (hw' : w ≤ 1) :
    updateConfidence kappa1 kappa2 beta w ≤ min kappa1 kappa2 := by
  have hmin0 : 0 ≤ min kappa1 kappa2 := le_min hk1 hk2
  have hs1 : beta + (1 - beta) * w ≤ 1 := by nlinarith
  have hx : min kappa1 kappa2 * (beta + (1 - beta) * w) ≤ min kappa1 kappa2 := by
    nlinarith [mul_nonneg hmin0 (sub_nonneg.mpr hs1)]
  exact clamp01_le _ _ hmin0 hx

/-- C8 witness: the conservatism bound at concrete inputs. -/
theorem updateConfidence_le_min_witness :
    updateConfidence (3/4) (1/2) (4/5) (1/2) ≤ min (3/4 : ℚ) (1/2) :=
  updateConfidence_le_min (3/4) (1/2) (4/5) (1/2)
    (by norm_num) (by norm_num) (by norm_num) (by norm_num)
    (by norm_num) (by norm_num) (by norm_num) (by norm_num)

/-- C9 (amended): the justification returned by `revise` is exactly the
deduplicated union of facts, rules and moral principles with the contexts
joined by "; " when they differ, with no chain and no revision metadata
of any kind; the revision timestamp lives on the belief itself and the
moral weight only in the `BeliefDelta`, and the merged justification does
not depend on the moral weight at all. -/
theorem revise_justification_carries_no_metadata
    (mexp mlog : ℚ → ℚ) (params : JWMCParams) (core : List String)
    (now : ℤ) (b : Belief) (ev : Evidence) (r : ReviseResult)
    (h : revise mexp mlog params core now b ev = some r) :
    r.belief.J =
      { facts := dedupFirst (b.J.facts ++ (ev.J.getD b.J).facts)
        rules := dedupFirst (b.J.rules ++ (ev.J.getD b.J).rules)
        moral_principles :=
          dedupFirst (b.J.moral_principles ++ (ev.J.getD b.J).moral_principles)
        context := if b.J.context = (ev.J.getD b.J).context then b.J.context
                   else b.J.context ++ "; " ++ (ev.J.getD b.J).context
        chain := none } ∧
    r.belief.timestamp = now ∧
    r.belief.source = .revised ∧
    r.delta.moral_weight = calculateMoralWeight core b.J (ev.J.getD b.J)
      params.gamma params.moral_core_bonus := by
  obtain ⟨q, hq, hpi, hkappa, hJ, hts, hsrc, hmw⟩ :=
    revise_eq_some mexp mlog params core now b ev r h
  exact ⟨hJ, hts, hsrc, hmw⟩

/-- The concrete result of `revise` on `sampleBelief`/`sampleEvidence` with
`γ = 0` (moral weight `0 < 0.5`): belief and delta computed by hand from
the source algorithm. -/
def sampleReviseResult : ReviseResult :=
  { belief :=
      { proposition := "treat_patient"
        pi := [("effective", 2/5), ("ineffective", 3/5)]
        kappa := 3/5
        J := { facts := ["f"], rules := [], moral_principles := []
               context := "c1; c2", chain := none }
        timestamp := 5
        source := .revised }
    delta :=
      { proposition := "treat_patient"
        pi_before := [("effective", 1/2), ("ineffective", 1/2)]
        pi_after := [("effective", 2/5), ("ineffective", 3/5)]
        kappa_before := 3/4
        kappa_after := 3/5
        moral_weight := 0
        stability_factor := 0 } }

/-- C9 witness: the amended statement applied at a concrete revision. -/
theorem revise_justification_carries_no_metadata_witness :
    sampleReviseResult.belief.J =
      { facts := ["f"], rules := [], moral_principles := []
        context := "c1; c2", chain := none } ∧
    sampleReviseResult.belief.timestamp = 5 ∧
    sampleReviseResult.belief.source = .revised :=
  have hr : revise id id { alpha := 7/10, beta := 8/10, gamma := 0, moral_core_bonus := 1/10 }
      [] 5 sampleBelief sampleEvidence = some sampleReviseResult := by
    simp [revise, blendCredences, calculateMoralWeight, jaccardSimilarity,
      hasCoreMoralPrinciple, sampleBelief, sampleEvidence, sampleReviseResult,
      credKeys, credSum, dedupFirst, dedupFirstAux, normalizeCredence,
      updateConfidence, mergeJustifications, calculateStabilityFactor, clamp01,
      lookup0_cons, lookup0_nil, Option.map]
    norm_num [lookup0_cons, lookup0_nil]
    simp
    rw [abs_of_nonneg (by norm_num : (0:ℚ) ≤ 3/20)]
    norm_num
  have h := revise_justification_carries_no_metadata id id
    { alpha := 7/10, beta := 8/10, gamma := 0, moral_core_bonus := 1/10 }
    [] 5 sampleBelief sampleEvidence sampleReviseResult hr
  ⟨by rw [h.1]; rfl, h.2.1, h.2.2.1⟩

end VAST

namespace VAST

/-- The concrete result of `revise` on `sampleBelief`/`sampleEvidence` with
`γ = 1` (moral weight `1 ≥ 0.5`), computed by hand from the source
algorithm: same merged justification as the `γ = 0` run. -/
def sampleReviseResultHighW : ReviseResult :=
  { belief :=
      { proposition := "treat_patient"
        pi := [("effective", 11/25), ("ineffective", 14/25)]
        kappa := 3/4
        J := { facts := ["f"], rules := [], moral_principles := []
               context := "c1; c2", chain := none }
        timestamp := 5
        source := .revised }
    delta :=
      { proposition := "treat_patient"
        pi_before := [("effective", 1/2), ("ineffective", 1/2)]
        pi_after := [("effective", 11/25), ("ineffective", 14/25)]
        kappa_before := 3/4
        kappa_after := 3/4
        moral_weight := 1
        stability_factor := 0 } }

/-- C9 counterexample: at a concrete revision whose moral weight is
`0 < 0.5`, the justification returned by `revise` is exactly the plain
deduplicated union with concatenated context — the `Justification` record
(faithful to `types.ts`) carries no method tag, no moral weight, no
revision timestamp, no conflict flag and no resolution note — and it is
identical to the justification produced when the moral weight is `1`,
so no `w < 0.5` metadata is attached either. -/
theorem revise_metadata_counterexample :
    revise id id { alpha := 7/10, beta := 8/10, gamma := 0, moral_core_bonus := 1/10 }
        [] 5 sampleBelief sampleEvidence = some sampleReviseResult ∧
    sampleReviseResult.delta.moral_weight < 1/2 ∧
    sampleReviseResult.belief.J =
      { facts := ["f"], rules := [], moral_principles := []
        context := "c1; c2", chain := none } ∧
    revise id id { alpha := 7/10, beta := 8/10, gamma := 1, moral_core_bonus := 1/10 }
        [] 5 sampleBelief sampleEvidence = some sampleReviseResultHighW ∧
    (1/2 : ℚ) ≤ sampleReviseResultHighW.delta.moral_weight ∧
    sampleReviseResultHighW.belief.J = sampleReviseResult.belief.J := by
  refine ⟨?_, ?_, ?_, ?_, ?_, ?_⟩
  · simp [revise, blendCredences, calculateMoralWeight, jaccardSimilarity,
      hasCoreMoralPrinciple, sampleBelief, sampleEvidence, sampleReviseResult,
      credKeys, credSum, dedupFirst, dedupFirstAux, normalizeCredence,
      updateConfidence, mergeJustifications, calculateStabilityFactor, clamp01,
      lookup0_cons, lookup0_nil, Option.map]
    norm_num [lookup0_cons, lookup0_nil]
    simp
    rw [abs_of_nonneg (by norm_num : (0:ℚ) ≤ 3/20)]
    norm_num
  · norm_num [sampleReviseResult]
  · rfl
  · simp [revise, blendCredences, calculateMoralWeight, jaccardSimilarity,
      hasCoreMoralPrinciple, sampleBelief, sampleEvidence, sampleReviseResultHighW,
      credKeys, credSum, dedupFirst, dedupFirstAux, normalizeCredence,
      updateConfidence, mergeJustifications, calculateStabilityFactor, clamp01,
      lookup0_cons, lookup0_nil, Option.map]
    norm_num [lookup0_cons, lookup0_nil]
    simp
    norm_num
  · norm_num [sampleReviseResultHighW]
  · rfl

end VAST

namespace VAST

/-! ### EEUCC — Expected Epistemic Utility with Cascading Constraints
(`eeucc/EEUCC.ts`) -/

/-- `ActionContext` (`types.ts`): the keys the core actually reads. -/
structure ActionContext where
  scenario : String := ""
  moral_stakes : Option ℚ := none
  time_pressure : Option String := none
  stakes : Option String := none

/-- `Constraint` (`types.ts`). -/
structure Constraint where
  id : String
  title : String
  principle : String
  priority : ℤ
  threshold : ℚ
  weight : ℚ
  propagation : Option ℚ := none
  description : Option String := none
deriving DecidableEq, Repr

/-- `ConstraintViolation` (`types.ts`). -/
structure ConstraintViolation where
  constraint_id : String
  violation_amount : ℚ
  penalty : ℚ
  explanation : String
deriving DecidableEq, Repr

/-- `EUBreakdown` (`types.ts`). -/
structure EUBreakdown where
  action_id : String
  eu_base : ℚ
  constraints : List ConstraintViolation
  eeu_total : ℚ
  justification_chain : List String
deriving DecidableEq, Repr

/-- `EEUCCParams` (`types.ts`): cascade factor λ and the optional
caller-supplied base-utility function `(action, context) => number`. -/
structure EEUCCParams where
  lambda : ℚ
  base_utility_fn : Option (String → ActionContext → ℚ) := none

/-- ASCII lower-casing of one character (JS `toLowerCase` restricted to the
ASCII identifiers the core compares). -/
def charToLower (c : Char) : Char :=
  if 'A' ≤ c ∧ c ≤ 'Z' then Char.ofNat (c.toNat + 32) else c

/-- JS `String.prototype.toLowerCase` on ASCII strings. -/
def strToLower (s : String) : String := ⟨s.data.map charToLower⟩

/-- Whether the second character list is an initial segment of the first. -/
def startsWithList : List Char → List Char → Bool
  | _, [] => true
  | [], _ :: _ => false
  | c :: s, d :: t => (c == d) && startsWithList s t

/-- Whether the second character list occurs contiguously in the first. -/
def containsSub : List Char → List Char → Bool
  | [], sub => sub.isEmpty
  | c :: s, sub => startsWithList (c :: s) sub || containsSub s sub

/-- JS `String.prototype.includes`. -/
def strIncludes (s sub : String) : Bool := containsSub s.data sub.data

namespace EEUCC

/-- `EEUCC.defaultUtilityHeuristic`: keyword-based outcome utility with the
context-weighted high-stakes branch; `context.moral_stakes || 0.5` is JS
falsy defaulting (absent or zero both yield `0.5`). -/
def defaultUtilityHeuristic (action outcome : String) (context : ActionContext) : ℚ :=
  let outcomeLower := strToLower outcome
  let actionLower := strToLower action
  if strIncludes outcomeLower "success" || strIncludes outcomeLower "effective" ||
      strIncludes outcomeLower "saves" || strIncludes outcomeLower "accurate" then 1
  else if strIncludes outcomeLower "fail" || strIncludes outcomeLower "ineffective" ||
      strIncludes outcomeLower "error" || strIncludes outcomeLower "false_positive" then 0
  else if strIncludes outcomeLower "partial" then 1/2
  else
    let moralStakes := match context.moral_stakes with
      | some v => if v = 0 then 1/2 else v
      | none => 1/2
    if strIncludes actionLower "life" || strIncludes actionLower "preserve" then
      (8/10) * moralStakes + 2/10
    else 1/2

/-- `EEUCC.getOutcomeUtility`: the caller-supplied `base_utility_fn` is
invoked as `fn(action, context)` — without the outcome — when present. -/
def getOutcomeUtility (params : EEUCCParams) (action outcome : String)
    (context : ActionContext) : ℚ :=
  match params.base_utility_fn with
  | some f => f action context
  | none => defaultUtilityHeuristic action outcome context

/-- `EEUCC.calculateBaseEU`: `κ · Σ_outcome π(outcome)·U(outcome)`. -/
def calculateBaseEU (params : EEUCCParams) (action : String) (belief : Belief)
    (context : ActionContext) : ℚ :=
  ((belief.pi.map (fun p => p.2 * getOutcomeUtility params action p.1 context)).sum)
    * belief.kappa

/-- The principle-specific rule inside `EEUCC.checkConstraintViolation`
(the `switch` on `constraint.principle`): violation amount and explanation. -/
def violationRule (action : String) (belief : Belief) (constraint : Constraint) :
    ℚ × String :=
  let actionLower := strToLower action
  let principle := strToLower constraint.principle
  if principle = "preserve_life" then
    if strIncludes actionLower "deny" || strIncludes actionLower "abort" ||
        strIncludes actionLower "reject" then
      (8/10, "Action \"" ++ action ++ "\" may threaten life preservation")
    else if strIncludes actionLower "delay" then
      (3/10, "Action \"" ++ action ++ "\" involves delay that may risk life")
    else (0, "")
  else if principle = "fairness" then
    if strIncludes actionLower "prioritize" &&
        (strIncludes actionLower "younger" || strIncludes actionLower "elderly") then
      (1/2, "Action \"" ++ action ++ "\" may violate procedural fairness")
    else if strIncludes actionLower "discriminate" then
      (9/10, "Action \"" ++ action ++ "\" involves discrimination")
    else (0, "")
  else if principle = "respect_dignity" then
    if strIncludes actionLower "coerce" || strIncludes actionLower "deceive" ||
        strIncludes actionLower "manipulate" then
      (7/10, "Action \"" ++ action ++ "\" may violate human dignity")
    else (0, "")
  else if principle = "transparency" then
    if belief.J.facts.length + belief.J.rules.length +
        belief.J.moral_principles.length < 3 then
      (4/10, "Action \"" ++ action ++ "\" lacks sufficient justification")
    else (0, "")
  else if principle = "non_maleficence" then
    if strIncludes actionLower "harm" || strIncludes actionLower "damage" ||
        strIncludes actionLower "hurt" then
      (8/10, "Action \"" ++ action ++ "\" may cause harm")
    else (0, "")
  else
    if strIncludes actionLower ("not_" ++ principle) then
      (1/2, "Action \"" ++ action ++ "\" conflicts with " ++ constraint.title)
    else (0, "")

/-- `EEUCC.calculateViolationPenalty`:
`weight · (max 0 (violation_amount − threshold))²`. -/
def calculateViolationPenalty (violationAmount : ℚ) (constraint : Constraint) : ℚ :=
  let excess := max 0 (violationAmount - constraint.threshold)
  constraint.weight * excess ^ 2

/-- `EEUCC.checkConstraintViolation`: record a violation exactly when the
computed amount strictly exceeds the threshold (`context` is accepted but
unread, as in the source). -/
def checkConstraintViolation (action : String) (belief : Belief)
    (constraint : Constraint) (context : ActionContext) : Option ConstraintViolation :=
  let va := violationRule action belief constraint
  if va.1 > constraint.threshold then
    some { constraint_id := constraint.id
           violation_amount := va.1
           penalty := calculateViolationPenalty va.1 constraint
           explanation := va.2 }
  else none

/-- `EEUCC.assessConstraintViolations`: all recorded violations in
constraint order. -/
def assessConstraintViolations (action : String) (belief : Belief)
    (constraints : List Constraint) (context : ActionContext) : List ConstraintViolation :=
  constraints.filterMap (fun c => checkConstraintViolation action belief c context)

/-- The priorities present among recorded violations, in first-encounter
order (`groupViolationsByPriority` key set; violations whose constraint id
is unknown are skipped, as in the source). -/
def groupPriorities (constraints : List Constraint)
    (violations : List ConstraintViolation) : List ℤ :=
  dedupFirst (violations.filterMap (fun v =>
    (constraints.find? (fun c => c.id == v.constraint_id)).map Constraint.priority))

/-- `EEUCC.calculateCascadingPenalty`:
`Σ_priority λ^(p−1) · Σ(penalties at priority p)`. -/
def calculateCascadingPenalty (params : EEUCCParams) (constraints : List Constraint)
    (violations : List ConstraintViolation) : ℚ :=
  if violations.length = 0 then 0
  else ((groupPriorities constraints violations).map (fun p =>
    let levelPenalty := ((violations.filter (fun v =>
      match constraints.find? (fun c => c.id == v.constraint_id) with
      | some c => c.priority == p
      | none => false)).map ConstraintViolation.penalty).sum
    params.lambda ^ (p - 1) * levelPenalty)).sum

/-- `EEUCC.buildJustificationChain`: ordered audit display lines; the JS
`toFixed` decimal rendering of the numeric values is presentation-only and
elided from the embedded strings. -/
def buildJustificationChain (constraints : List Constraint) (action : String)
    (belief : Belief) (violations : List ConstraintViolation) : List String :=
  ["Action: " ++ action, "Base Expected Utility", "  Confidence (κ)",
    "  Credence outcomes"]
  ++ (if violations.length = 0 then ["No constraint violations detected"]
      else ["Constraint Violations"]
        ++ (violations.flatMap (fun v =>
            match constraints.find? (fun c => c.id == v.constraint_id) with
            | some c => ["  • " ++ c.title, "    Reason: " ++ v.explanation]
            | none => []))
        ++ ["Total Cascading Penalty"])
  ++ ["Final EEU", "Justification:"]
  ++ (belief.J.chain.getD []).map (fun line => "  " ++ line)

/-- `EEUCC.calculateEUBreakdown`. -/
def calculateEUBreakdown (params : EEUCCParams) (constraints : List Constraint)
    (action : String) (belief : Belief) (context : ActionContext) : EUBreakdown :=
  let eu_base := calculateBaseEU params action belief context
  let violations := assessConstraintViolations action belief constraints context
  let totalPenalty := calculateCascadingPenalty params constraints violations
  let eeu_total := eu_base - totalPenalty
  { action_id := action
    eu_base := eu_base
    constraints := violations
    eeu_total := eeu_total
    justification_chain := buildJustificationChain constraints action belief violations }

/-- `EEUCC.sortConstraintsByPriority`: ascending priority, stable (the
`EEUCC` constructor applies this to its constraint list). -/
def sortConstraintsByPriority (constraints : List Constraint) : List Constraint :=
  List.insertionSort (fun c1 c2 => c1.priority ≤ c2.priority) constraints

/-- `EEUCC.decide`: one breakdown per action with a belief (actions without
a belief are skipped with a console warning and the loop continues), then
sorted by `eeu_total` descending. -/
def decide (params : EEUCCParams) (constraints : List Constraint)
    (actions : List String) (beliefs : List (String × Belief))
    (context : ActionContext) : List EUBreakdown :=
  let breakdowns := actions.filterMap (fun action =>
    (beliefs.lookup action).map (fun belief =>
      calculateEUBreakdown params constraints action belief context))
  List.insertionSort (fun x y => y.eeu_total ≤ x.eeu_total) breakdowns

end EEUCC

end VAST

namespace VAST

/-- The breakdown built for an action carries that action's id. -/
theorem calculateEUBreakdown_action_id (params : EEUCCParams)
    (constraints : List Constraint) (action : String) (belief : Belief)
    (context : ActionContext) :
    (EEUCC.calculateEUBreakdown params constraints action belief context).action_id
      = action := rfl

/-- Counting breakdowns for one action id among the breakdowns of a
duplicate-free action list: one when the action has a belief, zero
otherwise. -/
theorem countP_breakdowns (params : EEUCCParams) (constraints : List Constraint)
    (context : ActionContext) (beliefs : List (String × Belief)) (a : String) :
    ∀ actions : List String, actions.Nodup →
      ((actions.filterMap (fun x => (beliefs.lookup x).map
          (fun b => EEUCC.calculateEUBreakdown params constraints x b context))).countP
        (fun bd => bd.action_id == a))
      = if a ∈ actions ∧ (beliefs.lookup a).isSome then 1 else 0 := by
  intro actions
  induction actions with
  | nil => simp
  | cons x rest ih =>
    intro hnd
    have hxrest : x ∉ rest := (List.nodup_cons.mp hnd).1
    have hrest := ih (List.nodup_cons.mp hnd).2
    cases hx : beliefs.lookup x with
    | none =>
      rw [List.filterMap_cons]
      simp only [hx, Option.map_none']
      rw [hrest]
      simp only [List.mem_cons]
      by_cases hax : a = x
      · subst hax
        simp [hx]
      · by_cases har : a ∈ rest <;>
          by_cases hsome : (beliefs.lookup a).isSome = true <;>
          simp [har, hsome, hax]
    | some b =>
      rw [List.filterMap_cons]
      simp only [hx, Option.map_some']
      rw [List.countP_cons, hrest]
      simp only [List.mem_cons]
      by_cases hax : a = x
      · subst hax
        have hbd : ((EEUCC.calculateEUBreakdown params constraints a b context).action_id
            == a) = true := by
          rw [calculateEUBreakdown_action_id]
          simp
        simp [hbd, hxrest, hx]
      · have hbd : ((EEUCC.calculateEUBreakdown params constraints x b context).action_id
            == a) = false := by
          rw [calculateEUBreakdown_action_id]
          simp [Ne.symm hax]
        by_cases har : a ∈ rest <;>
          by_cases hsome : (beliefs.lookup a).isSome = true <;>
          simp [hbd, har, hsome, hax]

/-- C2: `decide` returns one breakdown per candidate action with a matching
belief (counted by action id for duplicate-free candidates), sorted
non-increasing by `eeu_total`; actions without a belief contribute nothing,
and the output is a permutation of the per-action breakdowns, so a missing
belief never aborts evaluation of the remaining actions. -/
theorem decide_sorted_complete_skips (params : EEUCCParams)
    (constraints : List Constraint) (actions : List String)
    (beliefs : List (String × Belief)) (context : ActionContext)
    (hnd : actions.Nodup) :
    List.Sorted (fun x y : EUBreakdown => y.eeu_total ≤ x.eeu_total)
      (EEUCC.decide params constraints actions beliefs context) ∧
    (EEUCC.decide params constraints actions beliefs context).Perm
      (actions.filterMap (fun x => (beliefs.lookup x).map
        (fun b => EEUCC.calculateEUBreakdown params constraints x b context))) ∧
    (∀ a ∈ actions, (beliefs.lookup a).isSome →
      ((EEUCC.decide params constraints actions beliefs context).countP
        (fun bd => bd.action_id == a)) = 1) ∧
    (∀ a, beliefs.lookup a = none →
      ((EEUCC.decide params constraints actions beliefs context).countP
        (fun bd => bd.action_id == a)) = 0) := by
  haveI htotal : IsTotal EUBreakdown (fun x y => y.eeu_total ≤ x.eeu_total) :=
    ⟨fun a b => le_total b.eeu_total a.eeu_total⟩
  haveI htrans : IsTrans EUBreakdown (fun x y => y.eeu_total ≤ x.eeu_total) :=
    ⟨fun _ _ _ hab hbc => le_trans hbc hab⟩
  have hperm : (EEUCC.decide params constraints actions beliefs context).Perm
      (actions.filterMap (fun x => (beliefs.lookup x).map
        (fun b => EEUCC.calculateEUBreakdown params constraints x b context))) :=
    List.perm_insertionSort _ _
  refine ⟨List.sorted_insertionSort _ _, hperm, ?_, ?_⟩
  · intro a ha hsome
    rw [hperm.countP_eq, countP_breakdowns params constraints context beliefs a actions hnd,
      if_pos ⟨ha, hsome⟩]
  · intro a hnone
    rw [hperm.countP_eq, countP_breakdowns params constraints context beliefs a actions hnd,
      if_neg]
    rintro ⟨_, hsome⟩
    rw [hnone] at hsome
    cases hsome

end VAST

namespace VAST

/-- A second sample belief (distinct proposition and distribution). -/
def sampleBeliefB : Belief :=
  { proposition := "B"
    pi := [("success", 7/10), ("fail", 3/10)]
    kappa := 17/20
    J := { facts := ["f"], rules := [], moral_principles := [], context := "c1" }
    timestamp := 0
    source := .initial }

/-- C2 witness: the decide theorem applied at concrete inputs — action "C"
has no belief and is skipped while "A" and "B" are both scored. -/
theorem decide_sorted_complete_skips_witness :
    ((EEUCC.decide { lambda := 1/2 } [] ["A", "B", "C"]
        [("A", sampleBelief), ("B", sampleBeliefB)] {}).countP
      (fun bd => bd.action_id == "A")) = 1 ∧
    ((EEUCC.decide { lambda := 1/2 } [] ["A", "B", "C"]
        [("A", sampleBelief), ("B", sampleBeliefB)] {}).countP
      (fun bd => bd.action_id == "C")) = 0 ∧
    List.Sorted (fun x y : EUBreakdown => y.eeu_total ≤ x.eeu_total)
      (EEUCC.decide { lambda := 1/2 } [] ["A", "B", "C"]
        [("A", sampleBelief), ("B", sampleBeliefB)] {}) := by
  have h := decide_sorted_complete_skips { lambda := 1/2 } [] ["A", "B", "C"]
    [("A", sampleBelief), ("B", sampleBeliefB)] {} (by decide)
  exact ⟨h.2.2.1 "A" (by decide) (by decide), h.2.2.2 "C" (by decide), h.1⟩

/-- C3: a violation is recorded if and only if the computed violation
amount strictly exceeds the constraint's threshold (equality records
nothing), and a recorded violation's penalty is
`weight · (violation_amount − threshold)²`. -/
theorem violation_iff_above_threshold (action : String) (belief : Belief)
    (constraint : Constraint) (context : ActionContext) :
    ((EEUCC.checkConstraintViolation action belief constraint context).isSome ↔
      (EEUCC.violationRule action belief constraint).1 > constraint.threshold) ∧
    ∀ v, EEUCC.checkConstraintViolation action belief constraint context = some v →
      v.violation_amount = (EEUCC.violationRule action belief constraint).1 ∧
      v.penalty = constraint.weight *
        ((EEUCC.violationRule action belief constraint).1 - constraint.threshold) ^ 2 := by
  by_cases h : (EEUCC.violationRule action belief constraint).1 > constraint.threshold
  · constructor
    · simp [EEUCC.checkConstraintViolation, h]
    · intro v hv
      simp only [EEUCC.checkConstraintViolation, if_pos h] at hv
      have hmax : max 0 ((EEUCC.violationRule action belief constraint).1
          - constraint.threshold)
          = (EEUCC.violationRule action belief constraint).1 - constraint.threshold :=
        max_eq_right (sub_nonneg.mpr (le_of_lt h))
      have hv2 := Option.some.inj hv
      rw [← hv2]
      exact ⟨rfl, by simp [EEUCC.calculateViolationPenalty, hmax]⟩
  · constructor
    · simp [EEUCC.checkConstraintViolation, h]
    · intro v hv
      simp [EEUCC.checkConstraintViolation, h] at hv

/-- Concrete constraint for the violation witness. -/
def cPreserveLife : Constraint :=
  { id := "c1"
    title := "Preserve Life"
    principle := "preserve_life"
    priority := 1
    threshold := 1/10
    weight := 9/10 }

/-- C3 witness: the action id "deny_treatment" triggers the preserve_life
rule with amount `0.8 > 0.1` and penalty `0.9·(0.8−0.1)² = 0.441`. -/
theorem violation_iff_above_threshold_witness :
    ∃ v, EEUCC.checkConstraintViolation "deny_treatment" sampleBelief
        cPreserveLife {} = some v ∧
      v.violation_amount = 8/10 ∧
      v.penalty = 441/1000 := by
  have h := violation_iff_above_threshold "deny_treatment" sampleBelief cPreserveLife {}
  have hva : (EEUCC.violationRule "deny_treatment" sampleBelief cPreserveLife).1
      = 8/10 := rfl
  have hgt : (EEUCC.violationRule "deny_treatment" sampleBelief cPreserveLife).1
      > cPreserveLife.threshold := by
    rw [hva]
    norm_num [cPreserveLife]
  obtain ⟨v, hv⟩ := Option.isSome_iff_exists.mp (h.1.mpr hgt)
  obtain ⟨hva2, hpen⟩ := h.2 v hv
  refine ⟨v, hv, by rw [hva2, hva], ?_⟩
  rw [hpen, hva]
  norm_num [cPreserveLife]

/-- C10: a caller-supplied `base_utility_fn` is applied without the outcome
argument, so every outcome receives the same utility and
`eu_base = κ · fn(action, context) · Σ_outcome π(outcome)`; hence two
beliefs with equal κ and equal credence mass get identical `eu_base` for
the same action and context, whatever their distributions. -/
theorem custom_utility_ignores_outcome (params : EEUCCParams)
    (f : String → ActionContext → ℚ) (hf : params.base_utility_fn = some f)
    (action : String) (context : ActionContext) (b1 b2 : Belief) :
    EEUCC.calculateBaseEU params action b1 context
      = b1.kappa * f action context * credSum b1.pi ∧
    (b1.kappa = b2.kappa → credSum b1.pi = credSum b2.pi →
      EEUCC.calculateBaseEU params action b1 context
        = EEUCC.calculateBaseEU params action b2 context) := by
  have key : ∀ b : Belief, EEUCC.calculateBaseEU params action b context
      = b.kappa * f action context * credSum b.pi := by
    intro b
    simp only [EEUCC.calculateBaseEU, EEUCC.getOutcomeUtility, hf]
    rw [List.sum_map_mul_right]
    have hs : (b.pi.map Prod.snd).sum = credSum b.pi := rfl
    rw [hs]
    ring
  refine ⟨key b1, fun hk hs => ?_⟩
  rw [key b1, key b2, hk, hs]

/-- C10 witness: a constant custom utility function on a concrete belief. -/
theorem custom_utility_ignores_outcome_witness :
    EEUCC.calculateBaseEU { lambda := 1/2, base_utility_fn := some (fun _ _ => 2) }
      "A" sampleBelief {}
      = sampleBelief.kappa * 2 * credSum sampleBelief.pi ∧
    sampleBelief.kappa * 2 * credSum sampleBelief.pi = 3/2 := by
  constructor
  · exact (custom_utility_ignores_outcome
      { lambda := 1/2, base_utility_fn := some (fun _ _ => 2) }
      (fun _ _ => 2) rfl "A" {} sampleBelief sampleBelief).1
  · norm_num [sampleBelief, credSum]

end VAST

namespace VAST

/-! ### BeliefManager instance operations (`belief/BeliefManager.ts`) -/

/-- The validation failures `BeliefManager` throws (`ValidationError`s). -/
inductive ValidationError
  | tooFewOutcomes
  | credenceSumOutOfTolerance
  | probabilityOutOfRange (outcome : String)
  | kappaOutOfRange
  | emptyJustification
deriving DecidableEq, Repr

/-- JS `Map.prototype.set`: replace in place when the key exists, append
otherwise. -/
def assocSet {β : Type} (l : List (String × β)) (k : String) (v : β) :
    List (String × β) :=
  if (l.lookup k).isSome then l.map (fun p => if p.1 = k then (k, v) else p)
  else l ++ [(k, v)]

/-- `BeliefManager`'s private state: the belief map and the chain map. -/
structure BeliefManagerState where
  beliefs : List (String × Belief) := []
  justification_chains : List (String × List String) := []
deriving Repr

namespace BeliefManager

/-- `BeliefManager.validateCredence`: at least 2 outcomes, sum within
`0.01` of `1`, then every probability in `[0,1]` (first offender reported),
checked in source order. -/
def validateCredence (pi : Credence) : Except ValidationError Unit :=
  if (credKeys pi).length < 2 then .error .tooFewOutcomes
  else if 1/100 < |credSum pi - 1| then .error .credenceSumOutOfTolerance
  else match pi.find? (fun p => decide (p.2 < 0 ∨ 1 < p.2)) with
    | some p => .error (.probabilityOutOfRange p.1)
    | none => .ok ()

/-- `BeliefManager.validateJustification`: at least one component. -/
def validateJustification (J : Justification) : Except ValidationError Unit :=
  if J.facts.length + J.rules.length + J.moral_principles.length = 0 then
    .error .emptyJustification
  else .ok ()

/-- `BeliefManager.buildJustificationChain`. -/
def buildJustificationChain (J : Justification) : List String :=
  (if J.context = "" then [] else ["Context: " ++ J.context])
  ++ (if J.facts.length = 0 then [] else
      "Facts:" :: J.facts.map (fun f => "  • " ++ f))
  ++ (if J.rules.length = 0 then [] else
      "Rules:" :: J.rules.map (fun r => "  • " ++ r))
  ++ (if J.moral_principles.length = 0 then [] else
      "Moral Principles:" :: J.moral_principles.map (fun mp => "  • " ++ mp))

/-- `BeliefManager.createBelief`: validate π, κ and J; on success store and
return the belief with the derived chain; the stored π is a copy of the
input — `createBelief` never normalizes. -/
def createBelief (mgr : BeliefManagerState) (now : ℤ) (proposition : String)
    (pi : Credence) (kappa : ℚ) (J : Justification)
    (source : BeliefSource := .initial) :
    Except ValidationError (BeliefManagerState × Belief) :=
  match validateCredence pi with
  | .error e => .error e
  | .ok _ =>
    if kappa < 0 ∨ 1 < kappa then .error .kappaOutOfRange
    else match validateJustification J with
      | .error e => .error e
      | .ok _ =>
        let chain := buildJustificationChain J
        let b : Belief :=
          { proposition := proposition
            pi := pi
            kappa := kappa
            J := { J with chain := some chain }
            timestamp := now
            source := source }
        .ok ({ beliefs := assocSet mgr.beliefs proposition b
               justification_chains :=
                 assocSet mgr.justification_chains proposition chain }, b)

end BeliefManager

end VAST

namespace VAST

/-- Justification used in the create examples. -/
def cJ : Justification :=
  { facts := ["f"], rules := [], moral_principles := [], context := "" }

/-- The belief stored by a successful create of an unnormalized π with
sum `1.005`: the input distribution verbatim, chain derived. -/
def storedBelief1005 : Belief :=
  { proposition := "p"
    pi := [("a", 1/2), ("b", 101/200)]
    kappa := 1/2
    J := { facts := ["f"], rules := [], moral_principles := [], context := ""
           chain := some ["Facts:", "  • f"] }
    timestamp := 0
    source := .initial }

/-- `validateCredence` succeeds when there are at least two outcomes, the
mass is within tolerance and every probability is in range. -/
theorem validateCredence_ok (pi : Credence)
    (hvals : ∀ p ∈ pi, 0 ≤ p.2 ∧ p.2 ≤ 1)
    (hlen : ¬ (credKeys pi).length < 2)
    (hsum : ¬ ((1:ℚ)/100 < |credSum pi - 1|)) :
    BeliefManager.validateCredence pi = .ok () := by
  have hfind : pi.find? (fun p => decide (p.2 < 0 ∨ 1 < p.2)) = none := by
    rw [List.find?_eq_none]
    intro p hp
    simp only [decide_eq_true_eq]
    push_neg
    exact hvals p hp
  unfold BeliefManager.validateCredence
  rw [if_neg hlen, if_neg hsum, hfind]

/-- `validateCredence` rejects an out-of-tolerance mass. -/
theorem validateCredence_err_sum (pi : Credence)
    (hlen : ¬ (credKeys pi).length < 2)
    (hsum : (1:ℚ)/100 < |credSum pi - 1|) :
    BeliefManager.validateCredence pi = .error .credenceSumOutOfTolerance := by
  unfold BeliefManager.validateCredence
  rw [if_neg hlen, if_pos hsum]

/-- A credence validation error propagates out of `createBelief`. -/
theorem createBelief_err_of_validate (mgr : BeliefManagerState) (now : ℤ)
    (proposition : String) (pi : Credence) (kappa : ℚ) (J : Justification)
    (source : BeliefSource) (e : ValidationError)
    (h : BeliefManager.validateCredence pi = .error e) :
    BeliefManager.createBelief mgr now proposition pi kappa J source = .error e := by
  unfold BeliefManager.createBelief
  rw [h]

/-- Anatomy of a successful `createBelief`: the stored belief holds the
input π verbatim. -/
theorem createBelief_ok (mgr : BeliefManagerState) (now : ℤ) (proposition : String)
    (pi : Credence) (kappa : ℚ) (J : Justification) (source : BeliefSource)
    (hpi : BeliefManager.validateCredence pi = .ok ())
    (hk : ¬ (kappa < 0 ∨ 1 < kappa))
    (hJ : ¬ (J.facts.length + J.rules.length + J.moral_principles.length = 0)) :
    BeliefManager.createBelief mgr now proposition pi kappa J source
      = .ok ({ beliefs := assocSet mgr.beliefs proposition
                 { proposition := proposition, pi := pi, kappa := kappa
                   J := { J with chain := some (BeliefManager.buildJustificationChain J) }
                   timestamp := now, source := source }
               justification_chains := assocSet mgr.justification_chains proposition
                 (BeliefManager.buildJustificationChain J) },
             { proposition := proposition, pi := pi, kappa := kappa
               J := { J with chain := some (BeliefManager.buildJustificationChain J) }
               timestamp := now, source := source }) := by
  unfold BeliefManager.createBelief BeliefManager.validateJustification
  rw [hpi, if_neg hk, if_neg hJ]

/-- C4 counterexample: a π with values in `[0,1]` and sum `1.04` — inside
the claimed `[0.9, 1.1]` normalization band — is rejected with a
ValidationError instead of being normalized (the code's tolerance is
`0.01`, not `0.1`, and it never normalizes); and a π with sum `1.005`
is accepted and stored verbatim, so the stored π does not sum to `1`
within `1e-9`. -/
theorem createBelief_counterexample :
    ((0:ℚ) ≤ 13/25 ∧ (13/25:ℚ) ≤ 1) ∧
    |credSum [("a", 13/25), ("b", 13/25)] - 1| ≤ 1/10 ∧
    BeliefManager.createBelief {} 0 "p" [("a", 13/25), ("b", 13/25)] (1/2) cJ .initial
      = .error .credenceSumOutOfTolerance ∧
    BeliefManager.createBelief {} 0 "p" [("a", 1/2), ("b", 101/200)] (1/2) cJ .initial
      = .ok ({ beliefs := [("p", storedBelief1005)]
               justification_chains := [("p", ["Facts:", "  • f"])] },
             storedBelief1005) ∧
    ¬ (|credSum storedBelief1005.pi - 1| ≤ 1/1000000000) := by
  refine ⟨⟨by norm_num, by norm_num⟩, ?_, ?_, ?_, ?_⟩
  · rw [abs_sub_le_iff]
    constructor <;> norm_num [credSum]
  · exact createBelief_err_of_validate _ _ _ _ _ _ _ _
      (validateCredence_err_sum _ (by decide)
        (by rw [lt_abs]; left; norm_num [credSum]))
  · have hok := createBelief_ok {} 0 "p" [("a", 1/2), ("b", 101/200)] (1/2) cJ .initial
      (validateCredence_ok _
        (by
          intro p hp
          simp only [List.mem_cons, List.not_mem_nil, or_false] at hp
          rcases hp with rfl | rfl <;> constructor <;> norm_num)
        (by decide)
        (by rw [not_lt, abs_sub_le_iff]; constructor <;> norm_num [credSum]))
      (by push_neg; constructor <;> norm_num)
      (by simp [cJ])
    rw [hok]
    simp [assocSet, BeliefManager.buildJustificationChain, cJ, storedBelief1005]
  · rw [not_le, lt_abs]
    left
    norm_num [credSum, storedBelief1005]

end VAST

namespace VAST

/-- `validateCredence` rejects fewer than two outcomes. -/
theorem validateCredence_err_len (pi : Credence)
    (hlen : (credKeys pi).length < 2) :
    BeliefManager.validateCredence pi = .error .tooFewOutcomes := by
  unfold BeliefManager.validateCredence
  rw [if_pos hlen]

/-- C4 (amended): for every credence π with values in `[0,1]` and sum in
`[0.9, 1.1]` (with valid κ and J), `createBelief` succeeds exactly when π
has at least two outcomes and its sum is within tolerance `0.01` of `1`,
raising ValidationError otherwise — it never normalizes: the π stored
after a successful create is the input itself, and therefore sums to `1`
within `0.01` (not within `1e-9`). -/
theorem createBelief_tolerance_band (mgr : BeliefManagerState) (now : ℤ)
    (proposition : String) (pi : Credence) (kappa : ℚ) (J : Justification)
    (source : BeliefSource)
    (hvals : ∀ p ∈ pi, 0 ≤ p.2 ∧ p.2 ≤ 1)
    (hband : 9/10 ≤ credSum pi ∧ credSum pi ≤ 11/10)
    (hk : ¬ (kappa < 0 ∨ 1 < kappa))
    (hJ : ¬ (J.facts.length + J.rules.length + J.moral_principles.length = 0)) :
    ((∃ r, BeliefManager.createBelief mgr now proposition pi kappa J source = .ok r) ↔
      (2 ≤ (credKeys pi).length ∧ |credSum pi - 1| ≤ 1/100)) ∧
    (∀ st b, BeliefManager.createBelief mgr now proposition pi kappa J source
        = .ok (st, b) → b.pi = pi ∧ |credSum b.pi - 1| ≤ 1/100) := by
  by_cases h1 : (credKeys pi).length < 2
  · have herr := createBelief_err_of_validate mgr now proposition pi kappa J source _
      (validateCredence_err_len pi h1)
    constructor
    · constructor
      · rintro ⟨r, hr⟩
        rw [herr] at hr
        cases hr
      · rintro ⟨hlen, _⟩
        omega
    · intro st b hb
      rw [herr] at hb
      cases hb
  · by_cases h2 : (1:ℚ)/100 < |credSum pi - 1|
    · have herr := createBelief_err_of_validate mgr now proposition pi kappa J source _
        (validateCredence_err_sum pi h1 h2)
      constructor
      · constructor
        · rintro ⟨r, hr⟩
          rw [herr] at hr
          cases hr
        · rintro ⟨_, hsum⟩
          exact absurd h2 (not_lt.mpr hsum)
      · intro st b hb
        rw [herr] at hb
        cases hb
    · have hok := createBelief_ok mgr now proposition pi kappa J source
        (validateCredence_ok pi hvals h1 h2) hk hJ
      constructor
      · constructor
        · intro _
          exact ⟨by omega, not_lt.mp h2⟩
        · intro _
          exact ⟨_, hok⟩
      · intro st b hb
        rw [hok] at hb
        simp only [Except.ok.injEq, Prod.mk.injEq] at hb
        constructor
        · rw [← hb.2]
        · rw [← hb.2]
          exact not_lt.mp h2

/-- C4 witness: the amended characterization at a concrete in-tolerance
credence, which is accepted. -/
theorem createBelief_tolerance_band_witness :
    ∃ r, BeliefManager.createBelief {} 0 "p" [("a", 1/2), ("b", 1/2)] (1/2) cJ .initial
      = .ok r := by
  have h := createBelief_tolerance_band {} 0 "p" [("a", 1/2), ("b", 1/2)] (1/2) cJ .initial
    (by
      intro p hp
      simp only [List.mem_cons, List.not_mem_nil, or_false] at hp
      rcases hp with rfl | rfl <;> constructor <;> norm_num)
    (by constructor <;> norm_num [credSum])
    (by push_neg; constructor <;> norm_num)
    (by simp [cJ])
  exact h.1.mpr ⟨by decide, by rw [abs_sub_le_iff]; constructor <;> norm_num [credSum]⟩

end VAST

namespace VAST

/-! ### Gauge data types (`types.ts`) and the audit log
(`GaugeMonitor.ts` / `LogManager`) -/

/-- `GaugeScores` (`types.ts`). -/
structure GaugeScores where
  calibration : ℚ
  normative_alignment : ℚ
  coherence : ℚ
  reasoning : ℚ
  overall_vast_score : ℚ
  timestamp : ℤ
deriving DecidableEq, Repr

/-- `GaugeName` (`types.ts`). -/
inductive GaugeName
  | calibration
  | normative_alignment
  | coherence
  | reasoning
  | overall
deriving DecidableEq, Repr

/-- `AlertSeverity` (`types.ts`). -/
inductive AlertSeverity
  | critical
  | warning
  | info
deriving DecidableEq, Repr

/-- `GaugeAlert` (`types.ts`); the `message`/`explanation`/`recommendation`
display strings (built with percentage `toFixed` formatting) are
presentation-only and elided. -/
structure GaugeAlert where
  gauge : GaugeName
  severity : AlertSeverity
  score : ℚ
  threshold : ℚ
  timestamp : ℤ
deriving DecidableEq, Repr

/-- The JS string key used for a severity in `alerts_by_severity`. -/
def severityName : AlertSeverity → String
  | .critical => "critical"
  | .warning => "warning"
  | .info => "info"

/-- `jwmc_metrics` payload of a `LogEntry` (`types.ts`). -/
structure JWMCMetrics where
  alpha : ℚ
  beta : ℚ
  gamma : ℚ
  deltas : List BeliefDelta
deriving DecidableEq, Repr

/-- `perception` payload of a `LogEntry` (`types.ts`; the `any`-typed
`evidence` bag is unread by the core and elided). -/
structure Perception where
  event : String
  source : Option String := none
deriving DecidableEq, Repr

/-- `LogEntry` (`types.ts`). -/
structure LogEntry where
  tick : Nat
  timestamp : ℤ
  perception : Option Perception := none
  beliefs_before : List Belief
  beliefs_after : List Belief
  jwmc_metrics : Option JWMCMetrics := none
  candidate_actions : List String
  eeucc_breakdown : List EUBreakdown
  chosen_action : String
  justification_chain : List String
  gauge_scores : GaugeScores
  alerts : List GaugeAlert
  scenario_id : String
  seed : Option ℤ := none
deriving DecidableEq, Repr

/-- The caller-supplied part of a `LogEntry`
(`Omit<LogEntry, tick | timestamp | scenario_id>`). -/
structure LogEntryInput where
  perception : Option Perception := none
  beliefs_before : List Belief
  beliefs_after : List Belief
  jwmc_metrics : Option JWMCMetrics := none
  candidate_actions : List String
  eeucc_breakdown : List EUBreakdown
  chosen_action : String
  justification_chain : List String
  gauge_scores : GaugeScores
  alerts : List GaugeAlert
  seed : Option ℤ := none
deriving DecidableEq, Repr

/-- `LogManager`'s private state. -/
structure LogManagerState where
  logs : List LogEntry
  scenarioId : String
  startTime : ℤ
  tickCounter : Nat
deriving DecidableEq, Repr

/-- `summary` of an `AuditTrail` (`types.ts`). -/
structure AuditSummary where
  total_decisions : Nat
  action_distribution : List (String × Nat)
  average_gauges : GaugeScores
  alerts_by_severity : List (String × Nat)
deriving DecidableEq, Repr

/-- `AuditTrail` (`types.ts`). -/
structure AuditTrail where
  scenario_id : String
  start_time : ℤ
  end_time : ℤ
  total_ticks : Nat
  logs : List LogEntry
  summary : AuditSummary
deriving DecidableEq, Repr

/-- `golden_metadata` of an exported golden log. The source stores a 32-bit
string hash of the JSON serialization of the (tick, chosen_action,
eeu_total) triples; that serialization and bit-level hash are
representation details never read back by `validateAgainstGolden`, so the
embedding keeps the order-sensitive key-data sequence itself. -/
structure GoldenMetadata where
  created_at : ℤ
  version : String
  total_ticks : Nat
  integrity_hash : List (Nat × String × Option ℚ)
deriving DecidableEq, Repr

/-- An exported golden log: the audit trail plus `golden_metadata` (the JS
object spreads the trail's fields at top level; the nesting here is
representation only). -/
structure GoldenLog where
  trail : AuditTrail
  golden_metadata : GoldenMetadata
deriving DecidableEq, Repr

namespace LogManager

/-- The `LogManager` constructor. -/
def init (scenarioId : String) (now : ℤ) : LogManagerState :=
  { logs := [], scenarioId := scenarioId, startTime := now, tickCounter := 0 }

/-- `LogManager.append`: assign the next tick and the current timestamp,
store, return the stored entry. -/
def append (lm : LogManagerState) (now : ℤ) (entry : LogEntryInput) :
    LogManagerState × LogEntry :=
  let fullEntry : LogEntry :=
    { tick := lm.tickCounter
      timestamp := now
      perception := entry.perception
      beliefs_before := entry.beliefs_before
      beliefs_after := entry.beliefs_after
      jwmc_metrics := entry.jwmc_metrics
      candidate_actions := entry.candidate_actions
      eeucc_breakdown := entry.eeucc_breakdown
      chosen_action := entry.chosen_action
      justification_chain := entry.justification_chain
      gauge_scores := entry.gauge_scores
      alerts := entry.alerts
      scenario_id := lm.scenarioId
      seed := entry.seed }
  ({ lm with logs := lm.logs ++ [fullEntry], tickCounter := lm.tickCounter + 1 },
    fullEntry)

/-- A sequence of `append` calls (each with its own clock reading). -/
def appendAll (lm : LogManagerState) (entries : List (ℤ × LogEntryInput)) :
    LogManagerState :=
  entries.foldl (fun m e => (append m e.1 e.2).1) lm

/-- `LogManager.buildAuditTrail`. -/
def buildAuditTrail (lm : LogManagerState) (now : ℤ) (logs : List LogEntry) :
    AuditTrail :=
  let allAlerts := logs.flatMap LogEntry.alerts
  let count : ℚ := if logs.length = 0 then 1 else (logs.length : ℚ)
  { scenario_id := lm.scenarioId
    start_time := lm.startTime
    end_time := now
    total_ticks := lm.tickCounter
    logs := logs
    summary :=
      { total_decisions := logs.length
        action_distribution := (dedupFirst (logs.map LogEntry.chosen_action)).map
          (fun a => (a, logs.countP (fun log => log.chosen_action == a)))
        average_gauges :=
          { calibration := (logs.map (fun l => l.gauge_scores.calibration)).sum / count
            normative_alignment :=
              (logs.map (fun l => l.gauge_scores.normative_alignment)).sum / count
            coherence := (logs.map (fun l => l.gauge_scores.coherence)).sum / count
            reasoning := (logs.map (fun l => l.gauge_scores.reasoning)).sum / count
            overall_vast_score :=
              (logs.map (fun l => l.gauge_scores.overall_vast_score)).sum / count
            timestamp := now }
        alerts_by_severity := (dedupFirst (allAlerts.map
            (fun a => severityName a.severity))).map
          (fun s => (s, allAlerts.countP (fun a => severityName a.severity == s))) } }

/-- `LogManager.calculateIntegrityHash` key data (see `GoldenMetadata`). -/
def calculateIntegrityHash (lm : LogManagerState) :
    List (Nat × String × Option ℚ) :=
  lm.logs.map (fun log => (log.tick, log.chosen_action,
    (log.eeucc_breakdown.find? (fun b => b.action_id == log.chosen_action)).map
      EUBreakdown.eeu_total))

/-- `LogManager.exportGoldenLog`: the full audit trail plus metadata. -/
def exportGoldenLog (lm : LogManagerState) (now : ℤ) : GoldenLog :=
  { trail := buildAuditTrail lm now lm.logs
    golden_metadata :=
      { created_at := now
        version := "1.0.0"
        total_ticks := lm.tickCounter
        integrity_hash := calculateIntegrityHash lm } }

/-- `LogManager.validateAgainstGolden`: compare tick counts, the
chosen-action sequence up to the shorter length, and the chosen-action
EEU values with tolerance `0.001`; a golden-JSON parse failure (`none`)
becomes a reported difference, never an exception. -/
def validateAgainstGolden (actualLog : LogManagerState) (now : ℤ)
    (golden : Option GoldenLog) : Bool × List String :=
  match golden with
  | none => (false, ["Failed to parse golden log"])
  | some goldenData =>
    let actualData := exportGoldenLog actualLog now
    let d1 : List String :=
      if goldenData.trail.total_ticks ≠ actualData.trail.total_ticks then
        ["Tick count mismatch"]
      else []
    let goldenActions := goldenData.trail.logs.map LogEntry.chosen_action
    let actualActions := actualData.trail.logs.map LogEntry.chosen_action
    let d2 : List String := (goldenActions.zip actualActions).enum.filterMap
      (fun ip => if ip.2.1 ≠ ip.2.2 then
        some ("Action mismatch at tick " ++ toString ip.1) else none)
    let d3 : List String :=
      ((goldenData.trail.logs.zip actualData.trail.logs).enum).filterMap (fun ip =>
        match ip.2.1.eeucc_breakdown.find? (fun b => b.action_id == ip.2.1.chosen_action),
              ip.2.2.eeucc_breakdown.find? (fun b => b.action_id == ip.2.2.chosen_action) with
        | some gb, some ab =>
          if |gb.eeu_total - ab.eeu_total| > 1/1000 then
            some ("EEU mismatch at tick " ++ toString ip.1)
          else none
        | _, _ => none)
    let differences := d1 ++ d2 ++ d3
    (differences.isEmpty, differences)

end LogManager

end VAST

namespace VAST

/-- A filterMap over an indexed self-zip vanishes when the function drops
every diagonal pair. -/
theorem filterMap_enumFrom_zip_self {β γ : Type} (f : Nat × β × β → Option γ)
    (hf : ∀ i b, f (i, b, b) = none) :
    ∀ (l : List β) (k : Nat), List.filterMap f (List.enumFrom k (l.zip l)) = [] := by
  intro l
  induction l with
  | nil => intro k; rfl
  | cons a rest ih =>
    intro k
    show List.filterMap f (List.enumFrom k ((a, a) :: rest.zip rest)) = []
    rw [List.enumFrom, List.filterMap_cons, hf k a]
    exact ih (k + 1)

/-- Same, phrased for `List.enum`. -/
theorem filterMap_enum_zip_self {β γ : Type} (f : Nat × β × β → Option γ)
    (hf : ∀ i b, f (i, b, b) = none) (l : List β) :
    List.filterMap f (l.zip l).enum = [] :=
  filterMap_enumFrom_zip_self f hf l 0

/-- C5: exporting a golden log and validating the same `LogManager`
against that just-exported log yields `valid = true` with an empty
differences list (whatever the two clock readings are): tick counts agree,
the chosen-action sequences coincide position-wise, and every chosen-action
EEU difference is `0 ≤ 0.001`. -/
theorem validateAgainstGolden_roundtrip (lm : LogManagerState)
    (exportNow validateNow : ℤ) :
    LogManager.validateAgainstGolden lm validateNow
      (some (LogManager.exportGoldenLog lm exportNow)) = (true, []) := by
  unfold LogManager.validateAgainstGolden
  have hlogs : (LogManager.exportGoldenLog lm exportNow).trail.logs = lm.logs := rfl
  have hlogs2 : (LogManager.exportGoldenLog lm validateNow).trail.logs = lm.logs := rfl
  have hticks : (LogManager.exportGoldenLog lm exportNow).trail.total_ticks
      = (LogManager.exportGoldenLog lm validateNow).trail.total_ticks := rfl
  simp only [hlogs, hlogs2, hticks, ne_eq, not_true_eq_false, if_neg, ite_false]
  rw [filterMap_enum_zip_self _ (by
    intro i b
    simp)]
  rw [filterMap_enum_zip_self _ (by
    intro i b
    cases hfind : b.eeucc_breakdown.find? (fun x => x.action_id == b.chosen_action) with
    | none => rfl
    | some gb =>
      show (if |gb.eeu_total - gb.eeu_total| > 1/1000 then _ else none) = none
      rw [if_neg]
      simp)]
  rfl

/-- With ticks matching the counter, one `append` extends the tick list by
the counter value. -/
theorem appendAll_ticks (entries : List (ℤ × LogEntryInput)) :
    ∀ lm : LogManagerState, lm.logs.map LogEntry.tick = List.range lm.tickCounter →
      (LogManager.appendAll lm entries).logs.map LogEntry.tick
        = List.range (lm.tickCounter + entries.length) := by
  induction entries with
  | nil =>
    intro lm h
    simpa [LogManager.appendAll] using h
  | cons e rest ih =>
    intro lm h
    have hstep : ((LogManager.append lm e.1 e.2).1).logs.map LogEntry.tick
        = List.range ((LogManager.append lm e.1 e.2).1).tickCounter := by
      show (lm.logs ++ [_]).map LogEntry.tick = List.range (lm.tickCounter + 1)
      rw [List.map_append, h, List.range_succ]
      rfl
    have hrec := ih ((LogManager.append lm e.1 e.2).1) hstep
    have hcount : ((LogManager.append lm e.1 e.2).1).tickCounter
        = lm.tickCounter + 1 := rfl
    calc (LogManager.appendAll lm (e :: rest)).logs.map LogEntry.tick
        = (LogManager.appendAll ((LogManager.append lm e.1 e.2).1) rest).logs.map
            LogEntry.tick := rfl
      _ = List.range (((LogManager.append lm e.1 e.2).1).tickCounter + rest.length) :=
            hrec
      _ = List.range (lm.tickCounter + (e :: rest).length) := by
            rw [hcount]
            exact congrArg List.range (by simp only [List.length_cons]; omega)

/-- C6: on a freshly constructed log, any sequence of `append` calls —
whatever the entries contain and whatever the clock reads — stores entries
whose ticks are exactly `0, 1, 2, …` in order. -/
theorem audit_ticks_from_zero (scenarioId : String) (startNow : ℤ)
    (entries : List (ℤ × LogEntryInput)) :
    (LogManager.appendAll (LogManager.init scenarioId startNow) entries).logs.map
      LogEntry.tick = List.range entries.length := by
  have h := appendAll_ticks entries (LogManager.init scenarioId startNow) rfl
  simpa [LogManager.init] using h

end VAST

namespace VAST

/-- `GaugeThresholds` (`types.ts`). -/
structure GaugeThresholds where
  excellent : ℚ
  good : ℚ
  fair : ℚ
deriving DecidableEq, Repr

namespace GaugeMonitor

/-- One gauge's decision inside `GaugeMonitor.generateAlerts`: skip while
within cooldown of the last alert for this gauge (`lastAlerts.get(name)
|| 0`), otherwise critical below `fair`, warning below `good`, nothing at
or above `good`. -/
def alertFor (thresholds : GaugeThresholds) (cooldown last now : ℤ)
    (g : GaugeName) (score : ℚ) : Option GaugeAlert :=
  if now - last < cooldown then none
  else if score < thresholds.fair then
    some { gauge := g, severity := .critical, score := score,
           threshold := thresholds.fair, timestamp := now }
  else if score < thresholds.good then
    some { gauge := g, severity := .warning, score := score,
           threshold := thresholds.good, timestamp := now }
  else none

/-- The loop of `generateAlerts` over the gauges, updating the
`lastAlerts` map on every emitted alert. -/
def alertFold (thresholds : GaugeThresholds) (cooldown : ℤ) :
    (GaugeName → ℤ) → ℤ → List (GaugeName × ℚ) → (GaugeName → ℤ) × List GaugeAlert
  | st, _, [] => (st, [])
  | st, now, (g, s) :: rest =>
    match alertFor thresholds cooldown (st g) now g s with
    | none => alertFold thresholds cooldown st now rest
    | some a =>
      let st2 := fun g2 => if g2 = g then now else st g2
      let res := alertFold thresholds cooldown st2 now rest
      (res.1, a :: res.2)

/-- The five gauges in the order `generateAlerts` examines them. -/
def gaugeList (scores : GaugeScores) : List (GaugeName × ℚ) :=
  [(.calibration, scores.calibration),
   (.normative_alignment, scores.normative_alignment),
   (.coherence, scores.coherence),
   (.reasoning, scores.reasoning),
   (.overall, scores.overall_vast_score)]

/-- `GaugeMonitor.generateAlerts` with an injectable clock reading. -/
def generateAlerts (thresholds : GaugeThresholds) (cooldown : ℤ)
    (st : GaugeName → ℤ) (now : ℤ) (scores : GaugeScores) :
    (GaugeName → ℤ) × List GaugeAlert :=
  alertFold thresholds cooldown st now (gaugeList scores)

/-- A sequence of `calculate` calls restricted to their alert-generation
effect: the gauge computations only feed the scores, supplied here as
inputs together with each call's clock reading. -/
def runAlerts (thresholds : GaugeThresholds) (cooldown : ℤ) :
    (GaugeName → ℤ) → List (ℤ × GaugeScores) → List GaugeAlert
  | _, [] => []
  | st, (now, sc) :: rest =>
    let res := generateAlerts thresholds cooldown st now sc
    res.2 ++ runAlerts thresholds cooldown res.1 rest

end GaugeMonitor

/-- An emitted alert records the call's timestamp and gauge, and implies
the cooldown had elapsed since the last alert for that gauge. -/
theorem alertFor_some (thresholds : GaugeThresholds) (cooldown last now : ℤ)
    (g : GaugeName) (score : ℚ) (a : GaugeAlert)
    (h : GaugeMonitor.alertFor thresholds cooldown last now g score = some a) :
    a.timestamp = now ∧ a.gauge = g ∧ last + cooldown ≤ now := by
  unfold GaugeMonitor.alertFor at h
  by_cases h1 : now - last < cooldown
  · rw [if_pos h1] at h
    cases h
  · rw [if_neg h1] at h
    have hle : last + cooldown ≤ now := by omega
    by_cases h2 : score < thresholds.fair
    · rw [if_pos h2] at h
      have := Option.some.inj h
      exact ⟨by rw [← this], by rw [← this], hle⟩
    · rw [if_neg h2] at h
      by_cases h3 : score < thresholds.good
      · rw [if_pos h3] at h
        have := Option.some.inj h
        exact ⟨by rw [← this], by rw [← this], hle⟩
      · rw [if_neg h3] at h
        cases h

/-- Gauges outside the processed list keep their `lastAlerts` entry. -/
theorem alertFold_state_untouched (thresholds : GaugeThresholds) (cooldown : ℤ) :
    ∀ (xs : List (GaugeName × ℚ)) (st : GaugeName → ℤ) (now : ℤ) (g : GaugeName),
      g ∉ xs.map Prod.fst →
      (GaugeMonitor.alertFold thresholds cooldown st now xs).1 g = st g := by
  intro xs
  induction xs with
  | nil => intro st now g _; rfl
  | cons x rest ih =>
    intro st now g hg
    obtain ⟨g0, s⟩ := x
    simp only [List.map_cons, List.mem_cons] at hg
    push_neg at hg
    rw [GaugeMonitor.alertFold]
    cases halert : GaugeMonitor.alertFor thresholds cooldown (st g0) now g0 s with
    | none => exact ih st now g hg.2
    | some a =>
      show (GaugeMonitor.alertFold thresholds cooldown _ now rest).1 g = st g
      rw [ih _ now g hg.2]
      exact if_neg hg.1

/-- Every alert emitted by one `generateAlerts` pass (over gauges with
distinct names) carries the call timestamp, a gauge from the list, an
elapsed cooldown against the incoming state, and leaves the outgoing
state for its gauge at the call time. -/
theorem alertFold_emitted (thresholds : GaugeThresholds) (cooldown : ℤ) :
    ∀ (xs : List (GaugeName × ℚ)) (st : GaugeName → ℤ) (now : ℤ),
      (xs.map Prod.fst).Nodup →
      ∀ a ∈ (GaugeMonitor.alertFold thresholds cooldown st now xs).2,
        a.gauge ∈ xs.map Prod.fst ∧ a.timestamp = now ∧
        st a.gauge + cooldown ≤ now ∧
        (GaugeMonitor.alertFold thresholds cooldown st now xs).1 a.gauge = now := by
  intro xs
  induction xs with
  | nil => intro st now _ a ha; cases ha
  | cons x rest ih =>
    intro st now hnd a ha
    obtain ⟨g0, s⟩ := x
    have hndcons : (g0 :: rest.map Prod.fst).Nodup := hnd
    have hg0 : g0 ∉ rest.map Prod.fst := (List.nodup_cons.mp hndcons).1
    have hrestnd : (rest.map Prod.fst).Nodup := (List.nodup_cons.mp hndcons).2
    rw [GaugeMonitor.alertFold] at ha ⊢
    cases halert : GaugeMonitor.alertFor thresholds cooldown (st g0) now g0 s with
    | none =>
      rw [halert] at ha
      obtain ⟨hmem, hts, hst, hfinal⟩ := ih st now hrestnd a ha
      exact ⟨by simp [hmem], hts, hst, hfinal⟩
    | some a0 =>
      rw [halert] at ha
      obtain ⟨hts0, hg0eq, hcd0⟩ := alertFor_some thresholds cooldown (st g0) now g0 s a0 halert
      rcases List.mem_cons.mp ha with rfl | ha2
      · refine ⟨by simp [hg0eq], hts0, by rw [hg0eq]; exact hcd0, ?_⟩
        show (GaugeMonitor.alertFold thresholds cooldown _ now rest).1 a.gauge = now
        rw [hg0eq, alertFold_state_untouched thresholds cooldown rest _ now g0 hg0]
        exact if_pos rfl
      · obtain ⟨hmem, hts, hst, hfinal⟩ := ih _ now hrestnd a ha2
        have hne : a.gauge ≠ g0 := by
          intro heq
          exact hg0 (heq ▸ hmem)
        refine ⟨by simp [hmem], hts, ?_, hfinal⟩
        have : (if a.gauge = g0 then now else st a.gauge) = st a.gauge := if_neg hne
        rw [this] at hst
        exact hst

/-- After one pass, each gauge's `lastAlerts` entry is either unchanged or
set to the call time with the cooldown having elapsed. -/
theorem alertFold_state_cases (thresholds : GaugeThresholds) (cooldown : ℤ) :
    ∀ (xs : List (GaugeName × ℚ)) (st : GaugeName → ℤ) (now : ℤ) (g : GaugeName),
      (xs.map Prod.fst).Nodup →
      (GaugeMonitor.alertFold thresholds cooldown st now xs).1 g = st g ∨
      ((GaugeMonitor.alertFold thresholds cooldown st now xs).1 g = now ∧
        st g + cooldown ≤ now) := by
  intro xs
  induction xs with
  | nil => intro st now g _; exact Or.inl rfl
  | cons x rest ih =>
    intro st now g hnd
    obtain ⟨g0, s⟩ := x
    have hndcons : (g0 :: rest.map Prod.fst).Nodup := hnd
    have hg0 : g0 ∉ rest.map Prod.fst := (List.nodup_cons.mp hndcons).1
    have hrestnd : (rest.map Prod.fst).Nodup := (List.nodup_cons.mp hndcons).2
    rw [GaugeMonitor.alertFold]
    cases halert : GaugeMonitor.alertFor thresholds cooldown (st g0) now g0 s with
    | none => exact ih st now g hrestnd
    | some a0 =>
      obtain ⟨_, _, hcd0⟩ := alertFor_some thresholds cooldown (st g0) now g0 s a0 halert
      by_cases hgg : g = g0
      · subst hgg
        right
        constructor
        · show (GaugeMonitor.alertFold thresholds cooldown _ now rest).1 g = now
          rw [alertFold_state_untouched thresholds cooldown rest _ now g hg0]
          exact if_pos rfl
        · exact hcd0
      · rcases ih (fun g2 => if g2 = g0 then now else st g2) now g hrestnd with hc | hc
        · left
          show (GaugeMonitor.alertFold thresholds cooldown _ now rest).1 g = st g
          rw [hc]
          exact if_neg hgg
        · right
          refine ⟨hc.1, ?_⟩
          have := hc.2
          rw [if_neg hgg] at this
          exact this

/-- Within one pass over gauges with distinct names, the emitted alerts
carry distinct gauges. -/
theorem alertFold_gauges_nodup (thresholds : GaugeThresholds) (cooldown : ℤ) :
    ∀ (xs : List (GaugeName × ℚ)) (st : GaugeName → ℤ) (now : ℤ),
      (xs.map Prod.fst).Nodup →
      (((GaugeMonitor.alertFold thresholds cooldown st now xs).2).map
        GaugeAlert.gauge).Nodup := by
  intro xs
  induction xs with
  | nil => intro st now _; exact List.nodup_nil
  | cons x rest ih =>
    intro st now hnd
    obtain ⟨g0, s⟩ := x
    have hndcons : (g0 :: rest.map Prod.fst).Nodup := hnd
    have hg0 : g0 ∉ rest.map Prod.fst := (List.nodup_cons.mp hndcons).1
    have hrestnd : (rest.map Prod.fst).Nodup := (List.nodup_cons.mp hndcons).2
    rw [GaugeMonitor.alertFold]
    cases halert : GaugeMonitor.alertFor thresholds cooldown (st g0) now g0 s with
    | none => exact ih st now hrestnd
    | some a0 =>
      obtain ⟨_, hg0eq, _⟩ := alertFor_some thresholds cooldown (st g0) now g0 s a0 halert
      show (GaugeAlert.gauge a0 :: _).Nodup
      refine List.nodup_cons.mpr ⟨?_, ih _ now hrestnd⟩
      intro hmem
      obtain ⟨b, hb, hbeq⟩ := List.mem_map.mp hmem
      obtain ⟨hbmem, _, _, _⟩ := alertFold_emitted thresholds cooldown rest _ now hrestnd b hb
      rw [hbeq, hg0eq] at hbmem
      exact hg0 hbmem

/-- The gauge names of `gaugeList` are distinct. -/
theorem gaugeList_nodup (scores : GaugeScores) :
    ((GaugeMonitor.gaugeList scores).map Prod.fst).Nodup := by
  show ([GaugeName.calibration, .normative_alignment, .coherence, .reasoning,
    .overall]).Nodup
  decide

/-- Any alert emitted after some state has a timestamp at least the
cooldown beyond that state's entry for its gauge. -/
theorem runAlerts_future (thresholds : GaugeThresholds) (cooldown : ℤ)
    (hcd : 0 ≤ cooldown) :
    ∀ (inputs : List (ℤ × GaugeScores)) (st : GaugeName → ℤ),
      ∀ b ∈ GaugeMonitor.runAlerts thresholds cooldown st inputs,
        st b.gauge + cooldown ≤ b.timestamp := by
  intro inputs
  induction inputs with
  | nil => intro st b hb; cases hb
  | cons x rest ih =>
    intro st b hb
    obtain ⟨now, sc⟩ := x
    have hsplit : GaugeMonitor.runAlerts thresholds cooldown st ((now, sc) :: rest)
        = (GaugeMonitor.alertFold thresholds cooldown st now
            (GaugeMonitor.gaugeList sc)).2
          ++ GaugeMonitor.runAlerts thresholds cooldown
              (GaugeMonitor.alertFold thresholds cooldown st now
                (GaugeMonitor.gaugeList sc)).1 rest := rfl
    rw [hsplit] at hb
    rcases List.mem_append.mp hb with h | h
    · obtain ⟨_, hts, hst, _⟩ := alertFold_emitted thresholds cooldown
        (GaugeMonitor.gaugeList sc) st now (gaugeList_nodup sc) b h
      rw [hts]
      exact hst
    · have hfut := ih _ b h
      rcases alertFold_state_cases thresholds cooldown (GaugeMonitor.gaugeList sc)
          st now b.gauge (gaugeList_nodup sc) with hc | hc
      · rw [hc] at hfut
        exact hfut
      · rw [hc.1] at hfut
        omega

/-- C7 core induction: from any `lastAlerts` state, across any sequence of
calls, any two alerts for the same gauge are at least the cooldown apart. -/
theorem runAlerts_pairwise (thresholds : GaugeThresholds) (cooldown : ℤ)
    (hcd : 0 ≤ cooldown) :
    ∀ (inputs : List (ℤ × GaugeScores)) (st : GaugeName → ℤ),
      (GaugeMonitor.runAlerts thresholds cooldown st inputs).Pairwise
        (fun a b => a.gauge = b.gauge → a.timestamp + cooldown ≤ b.timestamp) := by
  intro inputs
  induction inputs with
  | nil => intro st; exact List.Pairwise.nil
  | cons x rest ih =>
    intro st
    obtain ⟨now, sc⟩ := x
    have hsplit : GaugeMonitor.runAlerts thresholds cooldown st ((now, sc) :: rest)
        = (GaugeMonitor.alertFold thresholds cooldown st now
            (GaugeMonitor.gaugeList sc)).2
          ++ GaugeMonitor.runAlerts thresholds cooldown
              (GaugeMonitor.alertFold thresholds cooldown st now
                (GaugeMonitor.gaugeList sc)).1 rest := rfl
    rw [hsplit, List.pairwise_append]
    refine ⟨?_, ih _, ?_⟩
    · have hnd := alertFold_gauges_nodup thresholds cooldown
        (GaugeMonitor.gaugeList sc) st now (gaugeList_nodup sc)
      have hpw := (List.pairwise_map).mp hnd
      exact hpw.imp (fun h heq => absurd heq h)
    · intro a ha b hb heq
      obtain ⟨_, hts, _, hfinal⟩ := alertFold_emitted thresholds cooldown
        (GaugeMonitor.gaugeList sc) st now (gaugeList_nodup sc) a ha
      have hfut := runAlerts_future thresholds cooldown hcd rest _ b hb
      rw [← heq, hfinal] at hfut
      rw [hts]
      exact hfut

/-- C7: starting from a freshly constructed monitor (empty `lastAlerts`,
i.e. every gauge defaulting to `0`), over any sequence of `calculate`
calls with an injectable clock and any scores, no two alerts for the same
gauge — across all five gauges — are emitted with timestamps closer than
`alert_cooldown_ms`: a later alert for the gauge is at least the cooldown
after an earlier one. -/
theorem alert_cooldown_respected (thresholds : GaugeThresholds) (cooldown : ℤ)
    (hcd : 0 ≤ cooldown) (inputs : List (ℤ × GaugeScores)) :
    (GaugeMonitor.runAlerts thresholds cooldown (fun _ => 0) inputs).Pairwise
      (fun a b => a.gauge = b.gauge → a.timestamp + cooldown ≤ b.timestamp) :=
  runAlerts_pairwise thresholds cooldown hcd inputs (fun _ => 0)

/-- C7 witness: the cooldown theorem applied with the default thresholds
and a 5000 ms cooldown over two concrete calls. -/
theorem alert_cooldown_respected_witness :
    (GaugeMonitor.runAlerts { excellent := 3/4, good := 3/5, fair := 2/5 } 5000
      (fun _ => 0)
      [(5000, { calibration := 1/10, normative_alignment := 1/10, coherence := 1/10,
                reasoning := 1/10, overall_vast_score := 1/10, timestamp := 5000 }),
       (6000, { calibration := 1/10, normative_alignment := 1/10, coherence := 1/10,
                reasoning := 1/10, overall_vast_score := 1/10, timestamp := 6000 })]).Pairwise
      (fun a b => a.gauge = b.gauge → a.timestamp + 5000 ≤ b.timestamp) :=
  alert_cooldown_respected { excellent := 3/4, good := 3/5, fair := 2/5 } 5000
    (by norm_num) _

end VAST
